import Mathlib

/-!
# brev-cli: repository reconciliation, git URL normalisation, status polling

A shallow embedding of the decision logic of

* pkg/cmd/updatemodel/updatemodel.go (repoMerger: MergeBE, ReposToClone,
  reposValues, accValues; updateModel: RunE, remotes; makeReposFromRemotes),
  and
* pkg/cmd/start/start.go (ValidateGitURL, pollUntil, startWorkspace,
  createWorkspace, clone, SAMPLE and the Run function of NewCmdStart),

followed by the properties proved about it.

Conventions of the embedding.

* A Go map is a list of key/value entries with pairwise distinct keys. The
  order of the list is the order in which one range statement visits the
  map. Go leaves that order unspecified, so statements that are meant for
  every execution quantify over the order: the order of an input map is the
  order of its list, and the order in which the accumulator is ranged again
  inside the merge loop is given by an explicit argument (RangeOrder).
* A value of the map type is the list of entries of a map that is not nil.
  The manifest pointer of the merge is a ReposPtr: the nil pointer, a
  pointer to a nil map, or a pointer to a map.
* A Go function that can stop with a run-time panic returns an Option,
  none being the panic.
* Pointers are replaced by the values they point to at the moment the code
  reads through them. What a pointer to a range variable shows depends on
  the Go language version of the module (LoopVar).
* Go strings are sequences of bytes; here they are sequences of characters.
  The strings the code searches for are ASCII, and in UTF-8 text a search by
  bytes and a search by characters find the same occurrences.
* Terminal output, the spinner and time.Sleep are left out.
* A store is the answers its methods give during one run; the functions
  that use a store return the list of the calls they made besides their
  result.
-/

namespace BrevCli

/-! ## Data model (package entity) -/

/-- Modelled from the spec: entity.GitRepo (package entity is not among the
sources). Only the field the reconciliation code reads is kept, the
normalised SSH-style URL. -/
structure GitRepo where
  Repository : String
deriving DecidableEq

/-- Modelled from the spec: entity.RepoV1 (package entity is not among the
sources). RepoType is the Go field Type, one of the repository kinds
(currently only git). -/
structure RepoV1 where
  RepoType : String
  GitRepo : GitRepo
deriving DecidableEq

/-- The Go type entity.RepoName, a string. -/
abbrev RepoName := String

/-- The Go type entity.ReposV1, map[RepoName]RepoV1, for a map that is not
nil: the entries of the map in the order one range statement visits
them. -/
abbrev ReposV1 := List (RepoName × RepoV1)

/-- The Go type of a pointer to entity.ReposV1, the type of the field acc
of repoMerger and of the field ReposV1 of a workspace: the nil pointer, a
pointer to a nil map (which reads and ranges like the empty map and panics
on assignment), or a pointer to a map that is not nil, with its
entries. -/
inductive ReposPtr where
  | nil
  | nilMap
  | map (m : ReposV1)
deriving DecidableEq

/-- The URL that identifies a repository for the merge. -/
def RepoV1.url (r : RepoV1) : String := r.GitRepo.Repository

/-- The keys of a manifest. -/
def ReposV1.keys (m : ReposV1) : List RepoName := m.map Prod.fst

/-- The URLs declared in a manifest. -/
def ReposV1.urls (m : ReposV1) : List String := m.map (fun e => e.2.url)

/-- The comma-ok map read, v, ok := m[k]. -/
def ReposV1.read (m : ReposV1) (k : RepoName) : Option RepoV1 := List.lookup k m

/-- The map assignment m[k] = v on a map that is not nil: the value of an
existing key is replaced, a new key is added. -/
def ReposV1.set (m : ReposV1) (k : RepoName) (v : RepoV1) : ReposV1 :=
  if (m.read k).isSome then m.map (fun e => if e.1 == k then (e.1, v) else e)
  else m ++ [(k, v)]

/-! ## Range loops that collect addresses -/

/-- The two meanings Go has given to the variables of a range loop. Up to
Go 1.21 the loop has one variable v that every iteration assigns
(perLoop); from Go 1.22 on, for a module whose go directive asks for it,
each iteration has a fresh v (perIteration). The go.mod of the module is
not among the sources, so the meaning is an argument of the embedding.
The sources themselves are written for perLoop: reposValues copies the
variable by hand (v := v) under the comment "explicit memory aliasing in
for loop". -/
inductive LoopVar where
  | perLoop
  | perIteration
deriving DecidableEq

/-- What the pointers collected by a loop of the form
  for _, v := range xs, with the body values = append(values, &v),
point to once the loop is over. With one variable per loop every pointer
is the address of that one variable, which holds the value of the last
iteration. -/
def rangeAddrs {α : Type} : LoopVar → List α → List α
  | LoopVar.perIteration, xs => xs
  | LoopVar.perLoop, xs =>
    match xs.getLast? with
    | none => []
    | some x => List.replicate xs.length x

/-- The order in which one range statement visits a map: a rearrangement
of its entries chosen by the Go run time. -/
abbrev RangeOrder := ReposV1 → ReposV1

/-- A range order visits every entry of the map exactly once. -/
def RangeOrder.Valid (o : RangeOrder) : Prop := ∀ m, List.Perm (o m) m

/-! ## github.com/samber/lo -/

namespace lo

/-- The function lo.Find: the first element that satisfies the predicate,
if there is one (the Go function pairs it with a found flag). -/
def Find {α : Type} (collection : List α) (predicate : α → Bool) : Option α :=
  collection.find? predicate

/-- The function lo.Filter: the elements that satisfy the predicate, in
order. -/
def Filter {α : Type} (collection : List α) (predicate : α → Bool) : List α :=
  collection.filter predicate

end lo

/-! ## repoMerger -/

namespace repoMerger

/-- The method reposValues: the values of every local map, each copied into
a variable of its own before its address is taken. -/
def reposValues (repos : List ReposV1) : List RepoV1 :=
  (repos.map (fun repo => repo.map Prod.snd)).flatten

/-- The method accValues: no values for a nil accumulator (the test
r.acc == nil); otherwise the addresses of the loop variable of a range over
the accumulator, taken without a copy. The range over a nil map visits
nothing. -/
def accValues (lv : LoopVar) (order : RangeOrder) : ReposPtr → List RepoV1
  | ReposPtr.nil => []
  | ReposPtr.nilMap => rangeAddrs lv []
  | ReposPtr.map acc => rangeAddrs lv ((order acc).map Prod.snd)

/-- The body of the inner loop of MergeBE for one local entry (k, v) when
r.acc points to a map that is not nil: skip when the key is in the
accumulator, skip when lo.Find finds the URL among accValues, else
assign. -/
def mergeEntry (lv : LoopVar) (order : RangeOrder) (acc : ReposV1)
    (e : RepoName × RepoV1) : ReposV1 :=
  if (acc.read e.1).isSome then acc
  else if (lo.Find (accValues lv order (ReposPtr.map acc))
      (fun repo => repo.GitRepo.Repository == e.2.GitRepo.Repository)).isSome then acc
  else acc.set e.1 e.2

/-- The body of the inner loop of MergeBE for one local entry (k, v),
whatever r.acc is. With the nil pointer the read (*r.acc)[k] dereferences
nil and panics. With a pointer to a nil map the read finds no key and
accValues is empty, so the body reaches the assignment (*r.acc)[k] = v,
which panics on a nil map. -/
def mergeVisit (lv : LoopVar) (order : RangeOrder) :
    ReposPtr → RepoName × RepoV1 → Option ReposPtr
  | ReposPtr.nil, _ => none
  | ReposPtr.nilMap, e =>
    if (ReposV1.read [] e.1).isSome then some ReposPtr.nilMap
    else if (lo.Find (accValues lv order ReposPtr.nilMap)
        (fun repo => repo.GitRepo.Repository == e.2.GitRepo.Repository)).isSome then
      some ReposPtr.nilMap
    else none
  | ReposPtr.map acc, e => some (ReposPtr.map (mergeEntry lv order acc e))

/-- The two nested range loops of MergeBE over the entries they visit, in
visiting order; the i-th visit ranges the accumulator in the order
orders i. A panic of a visit ends the run. -/
def mergeVisits (lv : LoopVar) (orders : Nat → RangeOrder) :
    Nat → ReposPtr → List (RepoName × RepoV1) → Option ReposPtr
  | _, acc, [] => some acc
  | i, acc, e :: es =>
    (mergeVisit lv (orders i) acc e).bind fun acc1 => mergeVisits lv orders (i + 1) acc1 es

/-- The method MergeBE. The outer loop visits the maps of r.repos in slice
order and the inner loop the entries of each, so the visits are those of
repos.flatten. The result is r.acc after the visits, or none when a visit
panics. -/
def MergeBE (lv : LoopVar) (orders : Nat → RangeOrder) (acc : ReposPtr)
    (repos : List ReposV1) : Option ReposPtr :=
  mergeVisits lv orders 0 acc repos.flatten

/-- The visits of MergeBE on the entries of a map that is not nil, where no
visit panics: the entries of the accumulator after the visits. -/
def mergeLoop (lv : LoopVar) (orders : Nat → RangeOrder) :
    Nat → ReposV1 → List (RepoName × RepoV1) → ReposV1
  | _, acc, [] => acc
  | i, acc, e :: es => mergeLoop lv orders (i + 1) (mergeEntry lv (orders i) acc e) es

/-- The method ReposToClone: the accValues for which lo.Find finds no local
value with the same URL. -/
def ReposToClone (lv : LoopVar) (order : RangeOrder) (acc : ReposPtr)
    (repos : List ReposV1) : List RepoV1 :=
  lo.Filter (accValues lv order acc)
    (fun accrepo => !(lo.Find (reposValues repos)
      (fun repo => accrepo.GitRepo.Repository == repo.GitRepo.Repository)).isSome)

/-- The entries of es the merge may add to acc: those whose URL acc does
not have. -/
def fresh (acc : ReposV1) (es : List (RepoName × RepoV1)) : List (RepoName × RepoV1) :=
  es.filter (fun e => decide (e.2.url ∉ acc.urls))

/-- An entry is settled in an accumulator when a visit of it changes
nothing: its key or its URL is there. -/
def Settled (acc : ReposV1) (e : RepoName × RepoV1) : Prop :=
  (acc.read e.1).isSome = true ∨ e.2.url ∈ acc.urls

end repoMerger

/-- The range order that visits a map in the order of its list. -/
def listOrder : RangeOrder := fun m => m

/-- A git repository entry with the given URL. -/
def gitRepo (url : String) : RepoV1 := ⟨"git", ⟨url⟩⟩


/-! ## Package strings -/

namespace strings

/-- Whether sub occurs in s as a block of consecutive characters. -/
def containsChars : List Char → List Char → Bool
  | [], sub => sub.isEmpty
  | c :: s, sub => sub.isPrefixOf (c :: s) || containsChars s sub

/-- The function strings.Contains. -/
def Contains (s substr : String) : Bool := containsChars s.data substr.data

/-- Puts a character in front of the first segment. -/
def consHead (c : Char) : List (List Char) → List (List Char)
  | [] => [[c]]
  | seg :: segs => (c :: seg) :: segs

/-- The segments of s between the occurrences of a non-empty sep, the
occurrences being found from left to right without overlap, as
strings.Split finds them. The number counts the characters of a separator
just found that are still to be passed over. -/
def splitChars (sep : List Char) : Nat → List Char → List (List Char)
  | _, [] => [[]]
  | skip + 1, _ :: s => splitChars sep skip s
  | 0, c :: s =>
    if sep.isPrefixOf (c :: s) then [] :: splitChars sep (sep.length - 1) s
    else consHead c (splitChars sep 0 s)

/-- The function strings.Split: with an empty separator the string is cut
after each character, otherwise at each occurrence of the separator. -/
def Split (s sep : String) : List String :=
  if sep.data.isEmpty then s.data.map (fun c => String.mk [c])
  else (splitChars sep.data 0 s.data).map String.mk

end strings

/-! ## Package start -/

/-- The struct NewWorkspace. -/
structure NewWorkspace where
  Name : String
  GitRepo : String
deriving DecidableEq

/-- The function ValidateGitURL (its terminal argument is unused). The
function has no error result: what goes wrong is an index expression on a
slice that is too short, which panics (none). fmt.Sprintf with the verbs
%s.com:%s is the concatenation written here. -/
def ValidateGitURL (url : String) : Option NewWorkspace :=
  if strings.Contains url "http" then
    let split := strings.Split url ".com/"
    (split[0]?).bind fun split0 =>
    ((strings.Split split0 "://")[1]?).bind fun provider =>
    (split[1]?).bind fun split1 =>
    if strings.Contains split1 ".git" then
      ((strings.Split split1 ".git")[0]?).bind fun name =>
      some { GitRepo := provider ++ ".com:" ++ split1, Name := name }
    else
      some { GitRepo := provider ++ ".com:" ++ split1 ++ ".git", Name := split1 }
  else
    let split := strings.Split url ".com:"
    (split[0]?).bind fun split0 =>
    ((strings.Split split0 "@")[1]?).bind fun provider =>
    (split[1]?).bind fun split1 =>
    ((strings.Split split1 ".git")[0]?).bind fun name =>
    some { GitRepo := provider ++ ".com:" ++ split1, Name := name }

/-- What both branches of ValidateGitURL return for host h and path p
followed by .git. -/
def normalised (h p : String) : Option NewWorkspace :=
  ((strings.Split (p ++ ".git") ".git")[0]?).bind fun name =>
    some { GitRepo := h ++ ".com:" ++ (p ++ ".git"), Name := name }

/-- Modelled from the spec: entity.Workspace (package entity is not among
the sources), with the fields the spec lists apart from the manifest. -/
structure Workspace where
  ID : String
  Name : String
  Status : String
  DNS : String
deriving DecidableEq

/-- What one call of GetWorkspace returns: a workspace or an error. -/
abbrev Fetched (E : Type) := Except E Workspace

/-- A fetch is decisive for pollUntil when it fails or reports the target
status: the two ways out of the loop. -/
def decisive {E : Type} (state : String) : Fetched E → Bool
  | Except.error _ => true
  | Except.ok ws => ws.Status == state

/-- What pollUntil returns after a decisive fetch: the wrapped error of a
failed fetch, nil (none) otherwise. -/
def pollResult {E : Type} (wrapAndTrace : E → E) : Fetched E → Option E
  | Except.error err => some (wrapAndTrace err)
  | Except.ok _ => none

/-- The loop of pollUntil. The store is the sequence of answers GetWorkspace
gives to the successive calls for the polled workspace; i is the number of
fetches made so far and fuel bounds the number of further iterations (the
Go loop has no bound). The result is none when the fuel runs out with the
loop still going, and otherwise the number of fetches made together with
the returned error (none for nil). The error of a failed fetch is returned
through breverrors.WrapAndTrace, which is not among the sources and is the
argument wrapAndTrace. The sleep and the spinner are not modelled. -/
def pollLoop {E : Type} (wrapAndTrace : E → E) (state : String) (getWorkspace : Nat → Fetched E) :
    Nat → Nat → Option (Nat × Option E)
  | 0, _ => none
  | fuel + 1, i =>
    match getWorkspace i with
    | Except.error err => some (i + 1, some (wrapAndTrace err))
    | Except.ok ws =>
      if ws.Status = state then some (i + 1, none)
      else pollLoop wrapAndTrace state getWorkspace fuel (i + 1)

/-- The function pollUntil: the loop, entered with no fetch made. -/
def pollUntil {E : Type} (wrapAndTrace : E → E) (state : String) (getWorkspace : Nat → Fetched E)
    (fuel : Nat) : Option (Nat × Option E) :=
  pollLoop wrapAndTrace state getWorkspace fuel 0

/-! ## Errors -/

/-- Modelled from the spec: the error constructors the code calls, none of
which is among the sources. A Go error value is an Option, none for nil;
E is the type of the errors that are not nil. WrapAndTrace is
breverrors.WrapAndTrace on such an error (the error wrapped with call-site
context), Errorf is fmt.Errorf applied to the formatted message, and
Append is multierror.Append on two errors. -/
structure ErrorOps (E : Type) where
  WrapAndTrace : E → E
  Errorf : String → E
  Append : E → E → E

/-- The function breverrors.WrapAndTrace on a Go error: nil stays nil. -/
def ErrorOps.wrapAndTrace {E : Type} (ops : ErrorOps E) (err : Option E) : Option E :=
  err.map ops.WrapAndTrace

/-! ## Package start: the store and the commands -/

/-- Modelled from the spec: entity.Organization (package entity is not
among the sources). -/
structure Organization where
  ID : String
  Name : String
deriving DecidableEq

/-- Modelled from the spec: entity.User (package entity is not among the
sources), with the field the code reads. -/
structure User where
  ID : String
deriving DecidableEq

/-- The struct store.GetWorkspacesOptions, with the fields the code sets. -/
structure GetWorkspacesOptions where
  UserID : String
  Name : String
deriving DecidableEq

/-- The struct store.GetOrganizationsOptions, with the field the code
sets. -/
structure GetOrganizationsOptions where
  Name : String
deriving DecidableEq

/-- Modelled from the spec: the options built by
store.NewCreateWorkspacesOptions(clusterID, name).WithGitRepo(gitRepo)
(package store is not among the sources): what the code passes in. -/
structure CreateWorkspacesOptions where
  ClusterID : String
  Name : String
  GitRepo : String
deriving DecidableEq

/-- A call of a method of the interface StartStore, with its arguments. -/
inductive StoreCall where
  | GetWorkspaces (organizationID : String) (options : GetWorkspacesOptions)
  | GetActiveOrganizationOrDefault
  | GetCurrentUser
  | StartWorkspace (workspaceID : String)
  | GetWorkspace (workspaceID : String)
  | GetOrganizations (options : GetOrganizationsOptions)
  | CreateWorkspace (organizationID : String) (options : CreateWorkspacesOptions)
deriving DecidableEq

/-- The interface StartStore: what each method answers during one run of
the command. GetActiveOrganizationOrDefault may answer with no organization
and no error (the code tests for nil); the other methods answer with an
entity or an error. GetWorkspace is the only method a run calls more than
once: its answer depends on the number of earlier fetches. -/
structure StartStore (E : Type) where
  GetWorkspaces : String → GetWorkspacesOptions → Except E (List Workspace)
  GetActiveOrganizationOrDefault : Except E (Option Organization)
  GetCurrentUser : Except E User
  StartWorkspace : String → Except E Workspace
  GetWorkspace : String → Nat → Fetched E
  GetOrganizations : GetOrganizationsOptions → Except E (List Organization)
  CreateWorkspace : String → CreateWorkspacesOptions → Except E Workspace

/-- What a function of package start has done when it returns: the store
calls it made, in order, and the error it returns (none for nil). -/
structure Outcome (E : Type) where
  calls : List StoreCall
  err : Option E
deriving DecidableEq

/-- The calls and the result of pollUntil on a workspace: none while the
loop is still going when the fuel is spent. -/
def polled {E : Type} (ops : ErrorOps E) (store : StartStore E) (fuel : Nat)
    (wsid : String) (state : String) : Option (Outcome E) :=
  (pollUntil ops.WrapAndTrace state (store.GetWorkspace wsid) fuel).map fun r =>
    { calls := List.replicate r.1 (StoreCall.GetWorkspace wsid), err := r.2 }

/-- The function startWorkspace. The result is none when the polling loop
is still going once the fuel is spent. -/
def startWorkspace {E : Type} (ops : ErrorOps E) (store : StartStore E) (fuel : Nat)
    (workspaceName : String) : Option (Outcome E) :=
  match store.GetActiveOrganizationOrDefault with
  | Except.error err =>
    some ⟨[StoreCall.GetActiveOrganizationOrDefault], some (ops.WrapAndTrace err)⟩
  | Except.ok none =>
    some ⟨[StoreCall.GetActiveOrganizationOrDefault], some (ops.Errorf "no orgs exist")⟩
  | Except.ok (some org) =>
    match store.GetCurrentUser with
    | Except.error err =>
      some ⟨[StoreCall.GetActiveOrganizationOrDefault, StoreCall.GetCurrentUser],
        some (ops.WrapAndTrace err)⟩
    | Except.ok user =>
      let options : GetWorkspacesOptions := { UserID := user.ID, Name := workspaceName }
      let lookup := [StoreCall.GetActiveOrganizationOrDefault, StoreCall.GetCurrentUser,
        StoreCall.GetWorkspaces org.ID options]
      match store.GetWorkspaces org.ID options with
      | Except.error err => some ⟨lookup, some (ops.WrapAndTrace err)⟩
      | Except.ok workspaces =>
        if workspaces.length = 0 then
          some ⟨lookup, some (ops.Errorf ("no workspace found of name " ++ workspaceName))⟩
        else if workspaces.length > 1 then
          some ⟨lookup, some (ops.Errorf ("more than 1 workspace found of name " ++ workspaceName))⟩
        else
          (workspaces[0]?).bind fun workspace =>
          match store.StartWorkspace workspace.ID with
          | Except.error err =>
            some ⟨lookup ++ [StoreCall.StartWorkspace workspace.ID], some (ops.WrapAndTrace err)⟩
          | Except.ok _ =>
            (polled ops store fuel workspace.ID "RUNNING").map fun p =>
              { calls := lookup ++ [StoreCall.StartWorkspace workspace.ID] ++ p.calls,
                err := ops.wrapAndTrace p.err }

/-- The function createWorkspace; defaultClusterID is the value of
config.GlobalConfig.GetDefaultClusterID(), which is not among the
sources. -/
def createWorkspace {E : Type} (ops : ErrorOps E) (defaultClusterID : String)
    (store : StartStore E) (fuel : Nat) (newworkspace : NewWorkspace) (orgID : String) :
    Option (Outcome E) :=
  let clusterID := defaultClusterID
  let options : CreateWorkspacesOptions :=
    { ClusterID := clusterID, Name := newworkspace.Name, GitRepo := newworkspace.GitRepo }
  match store.CreateWorkspace orgID options with
  | Except.error err =>
    some ⟨[StoreCall.CreateWorkspace orgID options], some (ops.WrapAndTrace err)⟩
  | Except.ok w =>
    (polled ops store fuel w.ID "RUNNING").map fun p =>
      { calls := [StoreCall.CreateWorkspace orgID options] ++ p.calls,
        err := ops.wrapAndTrace p.err }

/-- The function clone. The result is none when ValidateGitURL panics or
when the polling loop is still going once the fuel is spent. An error of
createWorkspace is printed and clone returns nil. -/
def clone {E : Type} (ops : ErrorOps E) (defaultClusterID : String) (store : StartStore E)
    (fuel : Nat) (url : String) (orgflag : String) : Option (Outcome E) :=
  (ValidateGitURL url).bind fun formattedURL =>
  if orgflag = "" then
    match store.GetActiveOrganizationOrDefault with
    | Except.error err =>
      some ⟨[StoreCall.GetActiveOrganizationOrDefault], some (ops.WrapAndTrace err)⟩
    | Except.ok none =>
      some ⟨[StoreCall.GetActiveOrganizationOrDefault], some (ops.Errorf "no org exist")⟩
    | Except.ok (some activeorg) =>
      (createWorkspace ops defaultClusterID store fuel formattedURL activeorg.ID).map fun c =>
        { calls := [StoreCall.GetActiveOrganizationOrDefault] ++ c.calls, err := none }
  else
    let options : GetOrganizationsOptions := { Name := orgflag }
    match store.GetOrganizations options with
    | Except.error err =>
      some ⟨[StoreCall.GetOrganizations options], some (ops.WrapAndTrace err)⟩
    | Except.ok orgs =>
      if orgs.length = 0 then
        some ⟨[StoreCall.GetOrganizations options], some (ops.Errorf ("no org with name " ++ orgflag))⟩
      else if orgs.length > 1 then
        some ⟨[StoreCall.GetOrganizations options],
          some (ops.Errorf ("more than one org with name " ++ orgflag))⟩
      else
        (orgs[0]?).bind fun org =>
        (createWorkspace ops defaultClusterID store fuel formattedURL org.ID).map fun c =>
          { calls := [StoreCall.GetOrganizations options] ++ c.calls, err := none }

/-- The function SAMPLE: it prints that the workspace is starting, shows a
spinner for 25 seconds and returns; it never uses its store argument, so
its list of store calls is empty. -/
def SAMPLE {E : Type} (_workspaceName : String) (_startStore : StartStore E) : List StoreCall :=
  []

/-- The Run function of the command built by NewCmdStart, on its one
argument and the value of the org flag: the store calls it makes. An error
of clone is printed; the call of startWorkspace is commented out in the
source and SAMPLE is called in its place. -/
def NewCmdStart_Run {E : Type} (ops : ErrorOps E) (defaultClusterID : String)
    (loginStartStore : StartStore E) (fuel : Nat) (arg : String) (org : String) :
    Option (List StoreCall) :=
  let isURL := strings.Contains arg "https://" || strings.Contains arg "git@"
  if !isURL then
    some (SAMPLE arg loginStartStore)
  else
    (clone ops defaultClusterID loginStartStore fuel arg org).map fun c => c.calls

/-- Error operations on messages, for the concrete runs below: WrapAndTrace
puts trace: in front, Errorf is the message, Append joins two messages. -/
def messageOps : ErrorOps String :=
  { WrapAndTrace := fun err => "trace: " ++ err
    Errorf := fun msg => msg
    Append := fun acc err => acc ++ "; " ++ err }

/-- A store for the concrete runs below, with the given active organization,
workspaces found by name, answer to CreateWorkspace and answers to the
successive status fetches. The user is u1, StartWorkspace succeeds and no
organization is found by name. -/
def sampleStore (activeorg : Option Organization) (workspaces : List Workspace)
    (created : Except String Workspace) (fetched : Nat → Fetched String) : StartStore String :=
  { GetWorkspaces := fun _ _ => Except.ok workspaces
    GetActiveOrganizationOrDefault := Except.ok activeorg
    GetCurrentUser := Except.ok { ID := "u1" }
    StartWorkspace := fun workspaceID => Except.ok ⟨workspaceID, "dev", "STARTING", ""⟩
    GetWorkspace := fun _ => fetched
    GetOrganizations := fun _ => Except.ok []
    CreateWorkspace := fun _ _ => created }

/-- Status fetches that report STARTING twice and RUNNING from then on. -/
def startingThenRunning : Nat → Fetched String :=
  fun i => if i < 2 then Except.ok ⟨"ws1", "dev", "STARTING", ""⟩
    else Except.ok ⟨"ws1", "dev", "RUNNING", "dev.brev.sh"⟩

/-! ## Package updatemodel: discovery and the command -/

namespace lo

/-- The loop of lo.Map from the index i on. -/
def MapFrom {α β : Type} (iteratee : α → Nat → β) : Nat → List α → List β
  | _, [] => []
  | i, item :: rest => iteratee item i :: MapFrom iteratee (i + 1) rest

/-- The function lo.Map: the iteratee applied to each element and its
index, in order. -/
def Map {α β : Type} (collection : List α) (iteratee : α → Nat → β) : List β :=
  MapFrom iteratee 0 collection

/-- The loop of lo.Reduce from the index i on. -/
def ReduceFrom {α β : Type} (accumulator : β → α → Nat → β) : Nat → β → List α → β
  | _, agg, [] => agg
  | i, agg, item :: rest => ReduceFrom accumulator (i + 1) (accumulator agg item i) rest

/-- The function lo.Reduce: the accumulator applied from the left, starting
from the initial value. -/
def Reduce {α β : Type} (collection : List α) (accumulator : β → α → Nat → β) (initial : β) : β :=
  ReduceFrom accumulator 0 initial collection

end lo

/-- A git remote as the code reads it: the URLs of its configuration. -/
structure Remote where
  Name : String
  URLs : List String
deriving DecidableEq

/-- One call of the function that filepath.WalkDir is given: the path
visited, the error WalkDir passes in (none for nil), whether the entry is a
directory, and what git.PlainOpen on the path and Remotes on the opened
repository answer. -/
structure WalkEntry (E : Type) where
  path : String
  err : Option E
  isDir : Bool
  plainOpen : Except E (Except E (List Remote))

/-- What one call of the walk function leaves behind: the error it returns,
the variable remotes of the enclosing function remotes, and the variable
remotes of the walk function itself (empty when the call did not get as far
as declaring it). -/
structure Visit (E : Type) where
  err : Option E
  remotes : List Remote
  inner : List Remote

/-- The function literal passed to filepath.WalkDir in remotes. The
statement remotes, err := repo.Remotes() stands in the block of the
function literal, where err is declared (a parameter) and remotes is not:
it declares a new variable remotes, and the append that follows is to that
variable. The variable of the enclosing function is not assigned. -/
def walkFn {E : Type} (ops : ErrorOps E) (remotes : List Remote) (entry : WalkEntry E) : Visit E :=
  match entry.err with
  | some err => ⟨some (ops.WrapAndTrace err), remotes, []⟩
  | none =>
    if !entry.isDir then ⟨none, remotes, []⟩
    else
      match entry.plainOpen with
      | Except.error err => ⟨some (ops.WrapAndTrace err), remotes, []⟩
      | Except.ok repo =>
        match repo with
        | Except.error err => ⟨some (ops.WrapAndTrace err), remotes, []⟩
        | Except.ok found => ⟨none, remotes, found ++ found⟩

/-- The function filepath.WalkDir on the visits it would make, in order: it
stops at the first visit whose function call returns an error and returns
that error. The list carried along is the variable remotes of the
enclosing function. -/
def WalkDir {E : Type} (fn : List Remote → WalkEntry E → Visit E) :
    List Remote → List (WalkEntry E) → Option E × List Remote
  | remotes, [] => (none, remotes)
  | remotes, entry :: rest =>
    match (fn remotes entry).err with
    | some err => (some err, (fn remotes entry).remotes)
    | none => WalkDir fn (fn remotes entry).remotes rest

/-- The interface updatemodelStore. ModifyWorkspace is given the manifest of
its request and its returned workspace is dropped; of the workspace that
GetWorkspace returns the code reads the manifest pointer ReposV1 only;
UserHomeDir is called twice in a run and answers by call number. -/
structure updatemodelStore (E : Type) where
  ModifyWorkspace : String → ReposPtr → Except E Unit
  GetCurrentWorkspaceID : Except E String
  GetWorkspace : String → Except E (ReposPtr)
  WriteString : String → String → Option E
  UserHomeDir : Nat → Except E String

/-- The struct updateModel: its store, its clone function (the answer to
the call with the given number, for a path and a URL; nil is none) and the
configure flag. -/
structure updateModel (E : Type) where
  Store : updatemodelStore E
  clone : Nat → String → String → Option E
  configure : Bool

/-- The method remotes of updateModel; tree gives the visits of
filepath.WalkDir from a root directory. -/
def updateModel.remotes {E : Type} (ops : ErrorOps E) (tree : String → List (WalkEntry E))
    (u : updateModel E) : Except E (List Remote) :=
  let remotes : List Remote := []
  match u.Store.UserHomeDir 0 with
  | Except.error err => Except.error (ops.WrapAndTrace err)
  | Except.ok dir =>
    match WalkDir (walkFn ops) remotes (tree dir) with
    | (some err, _) => Except.error (ops.WrapAndTrace err)
    | (none, remotes) => Except.ok remotes

/-- The function makeReposFromRemotes; the two functions of package parse,
which is not among the sources, are arguments. -/
def makeReposFromRemotes (GetRepoNameFromOrigin GetSSHURLFromOrigin : String → String)
    (remotes : List String) : ReposV1 :=
  lo.Reduce remotes
    (fun acc remote _ =>
      let name := GetRepoNameFromOrigin remote
      let url := GetSSHURLFromOrigin remote
      acc.set name { RepoType := "git", GitRepo := { Repository := url } })
    []

/-- The accumulator of the lo.Reduce at the end of RunE. -/
def joinErrors {E : Type} (ops : ErrorOps E) (acc : Option E) (err : Option E) (_ : Nat) :
    Option E :=
  match acc, err with
  | some a, some e => some (ops.Append a e)
  | none, some e => some (ops.WrapAndTrace e)
  | acc, none => acc

/-- The iteratee of the lo.Map at the end of RunE, on the repo at index i:
the clone call it makes (path and URL; it is clone call number i of the
run, the only calls of clone being these) and the error it returns. -/
def cloneRepo {E : Type} (ops : ErrorOps E) (u : updateModel E) (dir : String) (repo : RepoV1)
    (i : Nat) : (String × String) × Option E :=
  ((dir, repo.GitRepo.Repository), ops.wrapAndTrace (u.clone i dir repo.GitRepo.Repository))

/-- What RunE has done when it returns: the ModifyWorkspace calls (workspace
ID and manifest), the clone calls (path and URL), in order, and the error
it returns. -/
structure updateOutcome (E : Type) where
  modified : List (String × ReposPtr)
  cloned : List (String × String)
  err : Option E

/-- The method RunE of updateModel. Configure is the result of
DaemonConfigurer.Configure, whose file and systemctl effects are left out.
The result is none when the run panics: a remote without URL, or MergeBE
with a local entry and no map to assign to. ReposToClone reads the accumulator
that MergeBE has filled in place. -/
def updateModel.RunE {E : Type} (ops : ErrorOps E) (lv : LoopVar) (orders : Nat → RangeOrder)
    (order : RangeOrder) (GetRepoNameFromOrigin GetSSHURLFromOrigin : String → String)
    (Configure : Option E) (tree : String → List (WalkEntry E)) (u : updateModel E) :
    Option (updateOutcome E) :=
  if u.configure then some ⟨[], [], ops.wrapAndTrace Configure⟩
  else
    match u.remotes ops tree with
    | Except.error err => some ⟨[], [], some (ops.WrapAndTrace err)⟩
    | Except.ok remotes =>
      match u.Store.GetCurrentWorkspaceID with
      | Except.error err => some ⟨[], [], some (ops.WrapAndTrace err)⟩
      | Except.ok workspaceID =>
        match u.Store.GetWorkspace workspaceID with
        | Except.error err => some ⟨[], [], some (ops.WrapAndTrace err)⟩
        | Except.ok reposv1FromBE =>
          ((lo.Map remotes (fun remote _ => remote.URLs[0]?)).mapM id).bind fun urls =>
          let reposv1FromENV := makeReposFromRemotes GetRepoNameFromOrigin GetSSHURLFromOrigin urls
          (repoMerger.MergeBE lv orders reposv1FromBE [reposv1FromENV]).bind fun merged =>
          match u.Store.ModifyWorkspace workspaceID merged with
          | Except.error err => some ⟨[(workspaceID, merged)], [], some (ops.WrapAndTrace err)⟩
          | Except.ok _ =>
            match u.Store.UserHomeDir 1 with
            | Except.error err =>
              some ⟨[(workspaceID, merged)], [], some (ops.WrapAndTrace err)⟩
            | Except.ok dir =>
              let toClone := repoMerger.ReposToClone lv order merged [reposv1FromENV]
              let calls := lo.Map toClone (cloneRepo ops u dir)
              let errors := calls.map Prod.snd
              some ⟨[(workspaceID, merged)], calls.map Prod.fst,
                ops.wrapAndTrace (lo.Reduce errors (joinErrors ops) none)⟩

/-- A store for the concrete runs below: the workspace ws1 with the given
manifest, the home directory /home/ubuntu, and calls that succeed. -/
def sampleUpdateStore (manifest : ReposPtr) : updatemodelStore String :=
  { ModifyWorkspace := fun _ _ => Except.ok ()
    GetCurrentWorkspaceID := Except.ok "ws1"
    GetWorkspace := fun _ => Except.ok manifest
    WriteString := fun _ _ => none
    UserHomeDir := fun _ => Except.ok "/home/ubuntu" }

/-- A directory that is a checkout with the remote origin and holds two
files and no directory: the visits of a walk from it. (The entry .git is
a file, as in a linked worktree.) -/
def sampleTree : String → List (WalkEntry String) :=
  fun dir =>
    [ { path := dir, err := none, isDir := true,
        plainOpen := Except.ok (Except.ok [⟨"origin", ["git@github.com:brevdev/brev-cli.git"]⟩]) },
      { path := dir ++ "/.git", err := none, isDir := false,
        plainOpen := Except.error "repository does not exist" },
      { path := dir ++ "/main.go", err := none, isDir := false,
        plainOpen := Except.error "repository does not exist" } ]

/-- An updateModel for the concrete runs below: the first clone call fails,
the later ones succeed. -/
def sampleUpdateModel (manifest : ReposPtr) : updateModel String :=
  { Store := sampleUpdateStore manifest
    clone := fun i _ _ => if i = 0 then some "clone failed" else none
    configure := false }

/-! ## Lemmas on maps -/

theorem listOrder_valid : listOrder.Valid := fun _ => List.Perm.refl _

theorem read_append_single (m : ReposV1) (k k1 : RepoName) (v1 : RepoV1) :
    ReposV1.read (m ++ [(k1, v1)]) k
      = match m.read k with
        | some v => some v
        | none => if k = k1 then some v1 else none := by
  induction m with
  | nil =>
    by_cases h : k = k1
    · subst h; simp [ReposV1.read, List.lookup]
    · have hb : (k == k1) = false := by simpa using h
      simp [ReposV1.read, List.lookup, h, hb]
  | cons e m ih =>
    obtain ⟨k2, v2⟩ := e
    by_cases h : k = k2
    · subst h; simp [ReposV1.read, List.lookup]
    · have hb : (k == k2) = false := by simpa using h
      have ih2 := ih
      simp only [ReposV1.read] at ih2 ⊢
      simp [List.lookup, hb, ih2]

theorem set_of_read_none (m : ReposV1) (k : RepoName) (v : RepoV1)
    (h : m.read k = none) : m.set k v = m ++ [(k, v)] := by
  simp [ReposV1.set, h]

namespace repoMerger

/-- One visit either leaves the accumulator alone or appends the visited
entry, whose key was absent. -/
theorem mergeEntry_cases (lv : LoopVar) (o : RangeOrder) (acc : ReposV1)
    (e : RepoName × RepoV1) :
    mergeEntry lv o acc e = acc ∨
      (acc.read e.1 = none ∧
        lo.Find (accValues lv o (ReposPtr.map acc))
          (fun repo => repo.GitRepo.Repository == e.2.GitRepo.Repository) = none ∧
        mergeEntry lv o acc e = acc ++ [e]) := by
  unfold mergeEntry
  by_cases h1 : (acc.read e.1).isSome
  · simp [h1]
  · by_cases h2 : (lo.Find (accValues lv o (ReposPtr.map acc))
        (fun repo => repo.GitRepo.Repository == e.2.GitRepo.Repository)).isSome
    · simp [h1, h2]
    · right
      have h1n : acc.read e.1 = none := by simpa using h1
      have h2n : lo.Find (accValues lv o (ReposPtr.map acc))
          (fun repo => repo.GitRepo.Repository == e.2.GitRepo.Repository) = none := by
        simpa using h2
      refine ⟨h1n, h2n, ?_⟩
      simp [h1n, h2n, set_of_read_none]

theorem mergeEntry_read_of_some (lv : LoopVar) (o : RangeOrder) (acc : ReposV1)
    (e : RepoName × RepoV1) (k : RepoName) (v : RepoV1) (h : acc.read k = some v) :
    (mergeEntry lv o acc e).read k = some v := by
  rcases mergeEntry_cases lv o acc e with h1 | ⟨_, _, h3⟩
  · rw [h1]; exact h
  · rw [h3]
    obtain ⟨k1, v1⟩ := e
    rw [read_append_single, h]

theorem mergeLoop_read_of_some (lv : LoopVar) (orders : Nat → RangeOrder)
    (es : List (RepoName × RepoV1)) :
    ∀ (i : Nat) (acc : ReposV1) (k : RepoName) (v : RepoV1),
      acc.read k = some v → (mergeLoop lv orders i acc es).read k = some v := by
  induction es with
  | nil => intro i acc k v h; simpa [mergeLoop] using h
  | cons e es ih =>
    intro i acc k v h
    simp only [mergeLoop]
    exact ih (i + 1) _ k v (mergeEntry_read_of_some lv (orders i) acc e k v h)

/-- Every value handed out by accValues is a value of the accumulator, for
both loop-variable meanings. -/
theorem mem_accValues (lv : LoopVar) (o : RangeOrder) (ho : o.Valid) (acc : ReposV1)
    (r : RepoV1) (hr : r ∈ accValues lv o (ReposPtr.map acc)) : ∃ e ∈ acc, e.2 = r := by
  have hsub : ∀ x ∈ (o acc).map Prod.snd, ∃ e ∈ acc, e.2 = x := by
    intro x hx
    obtain ⟨e, he, hex⟩ := List.mem_map.1 hx
    exact ⟨e, (ho acc).mem_iff.1 he, hex⟩
  cases lv with
  | perIteration => exact hsub r (by simpa [accValues, rangeAddrs] using hr)
  | perLoop =>
    simp only [accValues, rangeAddrs] at hr
    cases hl : ((o acc).map Prod.snd).getLast? with
    | none => rw [hl] at hr; simp at hr
    | some x =>
      rw [hl] at hr
      have hrx : r = x := (List.mem_replicate.1 hr).2
      subst hrx
      exact hsub r (List.mem_of_getLast?_eq_some hl)

/-- When no entry of the accumulator has the URL of the visited entry,
lo.Find does not find it, for both loop-variable meanings. -/
theorem Find_accValues_none (lv : LoopVar) (o : RangeOrder) (ho : o.Valid) (acc : ReposV1)
    (u : String) (hu : u ∉ acc.urls) :
    lo.Find (accValues lv o (ReposPtr.map acc)) (fun repo => repo.GitRepo.Repository == u) = none := by
  simp only [lo.Find, List.find?_eq_none]
  intro r hr
  obtain ⟨e, he, her⟩ := mem_accValues lv o ho acc r hr
  have : r.GitRepo.Repository ≠ u := by
    intro h
    apply hu
    simp only [ReposV1.urls, List.mem_map]
    exact ⟨e, he, by rw [her]; exact h⟩
  simpa using this

/-- A visit of an entry whose key and URL are both new appends it. -/
theorem mergeEntry_new (lv : LoopVar) (o : RangeOrder) (ho : o.Valid) (acc : ReposV1)
    (e : RepoName × RepoV1) (hk : acc.read e.1 = none) (hu : e.2.url ∉ acc.urls) :
    mergeEntry lv o acc e = acc ++ [e] := by
  have hf := Find_accValues_none lv o ho acc e.2.url hu
  simp only [RepoV1.url] at hf
  simp [mergeEntry, hk, hf, set_of_read_none]

theorem urls_append_single (m : ReposV1) (e : RepoName × RepoV1) :
    ReposV1.urls (m ++ [e]) = m.urls ++ [e.2.url] := by
  simp [ReposV1.urls]

/-- The loop of MergeBE maps k to v once it has visited (k, v), provided k
and the URL of v are new and no other visited entry has that key or that
URL. -/
theorem mergeLoop_inserts (lv : LoopVar) (orders : Nat → RangeOrder)
    (ho : ∀ i, (orders i).Valid) (k : RepoName) (v : RepoV1)
    (es : List (RepoName × RepoV1)) :
    ∀ (i : Nat) (acc : ReposV1),
      (∀ e ∈ es, e.1 = k → e = (k, v)) →
      (∀ e ∈ es, e.2.url = v.url → e = (k, v)) →
      ((acc.read k = none ∧ v.url ∉ acc.urls ∧ (k, v) ∈ es) ∨ acc.read k = some v) →
      (mergeLoop lv orders i acc es).read k = some v := by
  induction es with
  | nil =>
    intro i acc _ _ h
    rcases h with ⟨_, _, hmem⟩ | h
    · simp at hmem
    · simpa [mergeLoop] using h
  | cons e es ih =>
    intro i acc hkey hurl h
    simp only [mergeLoop]
    have hkey2 : ∀ x ∈ es, x.1 = k → x = (k, v) := fun x hx => hkey x (List.mem_cons_of_mem _ hx)
    have hurl2 : ∀ x ∈ es, x.2.url = v.url → x = (k, v) :=
      fun x hx => hurl x (List.mem_cons_of_mem _ hx)
    apply ih (i + 1) _ hkey2 hurl2
    rcases h with ⟨hnone, hnew, hmem⟩ | h
    · by_cases he : e = (k, v)
      · right
        subst he
        rw [mergeEntry_new lv (orders i) (ho i) acc (k, v) hnone hnew, read_append_single, hnone]
        simp
      · left
        have hmem2 : (k, v) ∈ es := by
          rcases List.mem_cons.1 hmem with h1 | h1
          · exact absurd h1.symm he
          · exact h1
        have hek : e.1 ≠ k := fun hc => he (hkey e (List.mem_cons_self _ _) hc)
        have heu : e.2.url ≠ v.url := fun hc => he (hurl e (List.mem_cons_self _ _) hc)
        rcases mergeEntry_cases lv (orders i) acc e with h1 | ⟨_, _, h3⟩
        · rw [h1]; exact ⟨hnone, hnew, hmem2⟩
        · rw [h3]
          refine ⟨?_, ?_, hmem2⟩
          · obtain ⟨k1, v1⟩ := e
            rw [read_append_single, hnone]
            simp only at hek
            simp [Ne.symm hek]
          · rw [urls_append_single]
            simp only [List.mem_append, List.mem_singleton, not_or]
            exact ⟨hnew, Ne.symm heu⟩
    · right
      exact mergeEntry_read_of_some lv (orders i) acc e k v h

/-- With one variable per iteration lo.Find over accValues finds a URL as
soon as some entry of the accumulator has it. -/
theorem Find_accValues_perIteration (o : RangeOrder) (ho : o.Valid) (acc : ReposV1)
    (u : String) (hu : u ∈ acc.urls) :
    (lo.Find (accValues LoopVar.perIteration o (ReposPtr.map acc))
      (fun repo => repo.GitRepo.Repository == u)).isSome = true := by
  simp only [lo.Find, List.find?_isSome, accValues, rangeAddrs]
  obtain ⟨e, he, heu⟩ := List.mem_map.1 hu
  refine ⟨e.2, List.mem_map.2 ⟨e, (ho acc).mem_iff.2 he, rfl⟩, ?_⟩
  simpa [RepoV1.url] using heu

/-- With one variable per iteration a visit of an entry whose URL is in the
accumulator changes nothing. -/
theorem mergeEntry_known_url (o : RangeOrder) (ho : o.Valid) (acc : ReposV1)
    (e : RepoName × RepoV1) (hu : e.2.url ∈ acc.urls) :
    mergeEntry LoopVar.perIteration o acc e = acc := by
  have hf := Find_accValues_perIteration o ho acc e.2.url hu
  simp only [RepoV1.url] at hf
  unfold mergeEntry
  by_cases h1 : (acc.read e.1).isSome
  · simp [h1]
  · simp [h1, hf]

/-- What the loop of MergeBE computes when the visited entries have pairwise
distinct URLs (and, with one variable per loop, none of them is a URL of
the accumulator): a key of the accumulator keeps its value, any other key
gets the value of the first fresh visited entry with that key. -/
theorem mergeLoop_read (lv : LoopVar) (orders : Nat → RangeOrder)
    (ho : ∀ i, (orders i).Valid) (k : RepoName) (es : List (RepoName × RepoV1)) :
    ∀ (i : Nat) (acc : ReposV1),
      (es.map (fun e => e.2.url)).Nodup →
      (lv = LoopVar.perLoop → ∀ e ∈ es, e.2.url ∉ acc.urls) →
      (mergeLoop lv orders i acc es).read k
        = match acc.read k with
          | some v => some v
          | none => List.lookup k (fresh acc es) := by
  induction es with
  | nil =>
    intro i acc _ _
    simp only [mergeLoop, fresh, List.filter_nil, List.lookup]
    cases acc.read k <;> rfl
  | cons e es ih =>
    intro i acc hnd hlv
    obtain ⟨k1, v1⟩ := e
    have hnd2 : (es.map (fun e => e.2.url)).Nodup := (List.nodup_cons.1 hnd).2
    have hne : ∀ x ∈ es, x.2.url ≠ v1.url := by
      intro x hx hc
      apply (List.nodup_cons.1 hnd).1
      exact List.mem_map.2 ⟨x, hx, hc⟩
    simp only [mergeLoop]
    by_cases hu : v1.url ∈ acc.urls
    · -- the URL is known: only possible with one variable per iteration
      have hper : lv = LoopVar.perIteration := by
        cases lv with
        | perIteration => rfl
        | perLoop => exact absurd hu (hlv rfl (k1, v1) (List.mem_cons_self _ _))
      subst hper
      rw [mergeEntry_known_url (orders i) (ho i) acc (k1, v1) hu,
        ih (i + 1) acc hnd2 (fun h => by cases h)]
      have : fresh acc ((k1, v1) :: es) = fresh acc es := by
        simp [fresh, hu]
      rw [this]
    · have hfr : fresh acc ((k1, v1) :: es) = (k1, v1) :: fresh acc es := by
        simp [fresh, hu]
      rw [hfr]
      cases hk1 : acc.read k1 with
      | some w =>
        -- the key is taken: nothing changes, and k1 is not a key to be added
        have hme : mergeEntry lv (orders i) acc (k1, v1) = acc := by
          simp [mergeEntry, hk1]
        rw [hme, ih (i + 1) acc hnd2
          (fun h x hx => hlv h x (List.mem_cons_of_mem _ hx))]
        cases hk : acc.read k with
        | some v => rfl
        | none =>
          have hkk : (k == k1) = false := by
            have : k ≠ k1 := by
              intro hc; subst hc; rw [hk1] at hk; cases hk
            simpa using this
          simp [List.lookup, hkk]
      | none =>
        have hme := mergeEntry_new lv (orders i) (ho i) acc (k1, v1) hk1 hu
        have hfresh : fresh (acc ++ [(k1, v1)]) es = fresh acc es := by
          simp only [fresh]
          apply List.filter_congr
          intro x hx
          have := hne x hx
          simp [urls_append_single, this]
        rw [hme, ih (i + 1) (acc ++ [(k1, v1)]) hnd2, read_append_single, hfresh]
        · cases hk : acc.read k with
          | some v => rfl
          | none =>
            by_cases hkk : k = k1
            · subst hkk; simp [List.lookup]
            · have hb : (k == k1) = false := by simpa using hkk
              simp [List.lookup, hkk, hb]
        · intro h x hx
          rw [urls_append_single]
          simp only [List.mem_append, List.mem_singleton, not_or]
          exact ⟨hlv h x (List.mem_cons_of_mem _ hx), hne x hx⟩

/-- In a list with pairwise distinct keys, looking a key up finds exactly
the entries of the list. -/
theorem lookup_eq_some_iff_mem (l : List (RepoName × RepoV1)) (hnd : (l.map Prod.fst).Nodup)
    (k : RepoName) (v : RepoV1) : List.lookup k l = some v ↔ (k, v) ∈ l := by
  induction l with
  | nil => simp
  | cons e l ih =>
    obtain ⟨k1, v1⟩ := e
    have hnd1 := List.nodup_cons.1 hnd
    by_cases hk : k = k1
    · subst hk
      have hnot : (k, v) ∉ l := fun hc => hnd1.1 (List.mem_map.2 ⟨(k, v), hc, rfl⟩)
      simp only [List.lookup, beq_self_eq_true, List.mem_cons, Prod.mk.injEq, true_and]
      constructor
      · intro h; left; exact (Option.some.inj h).symm
      · rintro (h | h)
        · rw [h]
        · exact absurd h hnot
    · have hb : (k == k1) = false := by simpa using hk
      simp [List.lookup, hb, ih hnd1.2, hk]

/-- Two enumerations of the same entries with pairwise distinct keys look
up alike. -/
theorem lookup_perm (l1 l2 : List (RepoName × RepoV1)) (hp : l1.Perm l2)
    (hnd : (l1.map Prod.fst).Nodup) (k : RepoName) : List.lookup k l1 = List.lookup k l2 := by
  have hnd2 : (l2.map Prod.fst).Nodup := (hp.map Prod.fst).nodup_iff.1 hnd
  apply Option.ext
  intro v
  simp only [Option.mem_def]
  rw [lookup_eq_some_iff_mem l1 hnd, lookup_eq_some_iff_mem l2 hnd2]
  exact hp.mem_iff

theorem fresh_perm (acc : ReposV1) (l1 l2 : List (RepoName × RepoV1)) (hp : l1.Perm l2) :
    (fresh acc l1).Perm (fresh acc l2) := hp.filter _

theorem fresh_keys_nodup (acc : ReposV1) (l : List (RepoName × RepoV1))
    (hnd : (l.map Prod.fst).Nodup) : ((fresh acc l).map Prod.fst).Nodup :=
  hnd.sublist ((List.filter_sublist l).map Prod.fst)

/-! ### One variable per iteration -/

theorem reposValues_eq (repos : List ReposV1) :
    reposValues repos = repos.flatten.map Prod.snd := by
  simp [reposValues, List.map_flatten]

/-- The test of ReposToClone: lo.Find finds no local value with the URL. -/
theorem not_Find_reposValues (repos : List ReposV1) (r : RepoV1) :
    (!(lo.Find (reposValues repos)
        (fun repo => r.GitRepo.Repository == repo.GitRepo.Repository)).isSome)
      = decide (r.url ∉ ReposV1.urls repos.flatten) := by
  rw [reposValues_eq]
  by_cases h : r.url ∈ ReposV1.urls repos.flatten
  · have hf : (lo.Find (repos.flatten.map Prod.snd)
        (fun repo => r.GitRepo.Repository == repo.GitRepo.Repository)).isSome = true := by
      simp only [lo.Find, List.find?_isSome]
      obtain ⟨e, he, heu⟩ := List.mem_map.1 h
      refine ⟨e.2, List.mem_map.2 ⟨e, he, rfl⟩, ?_⟩
      simp only [RepoV1.url] at heu
      simp [heu]
    rw [hf]; simp [h]
  · have hf : lo.Find (repos.flatten.map Prod.snd)
        (fun repo => r.GitRepo.Repository == repo.GitRepo.Repository) = none := by
      simp only [lo.Find, List.find?_eq_none]
      intro x hx
      obtain ⟨e, he, hex⟩ := List.mem_map.1 hx
      have : r.GitRepo.Repository ≠ x.GitRepo.Repository := by
        intro hc
        apply h
        refine List.mem_map.2 ⟨e, he, ?_⟩
        simp only [RepoV1.url]
        rw [hex, hc]
      simpa using this
    rw [hf]; simp [h]

/-- With one variable per iteration ReposToClone returns, in the order of
the range over the accumulator, one element for each entry of the
accumulator whose URL no local entry has: the value of that entry. -/
theorem ReposToClone_perIteration (o : RangeOrder) (ho : o.Valid) (acc : ReposV1)
    (repos : List ReposV1) :
    List.Perm (ReposToClone LoopVar.perIteration o (ReposPtr.map acc) repos)
      ((acc.filter (fun e => decide (e.2.url ∉ ReposV1.urls repos.flatten))).map Prod.snd) := by
  have h : ReposToClone LoopVar.perIteration o (ReposPtr.map acc) repos
      = (((o acc).filter (fun e => decide (e.2.url ∉ ReposV1.urls repos.flatten))).map
          Prod.snd) := by
    simp only [ReposToClone, lo.Filter, accValues, rangeAddrs, List.filter_map]
    congr 1
    apply List.filter_congr
    intro e _
    exact not_Find_reposValues repos e.2
  rw [h]
  exact ((ho acc).filter _).map _

theorem mergeEntry_settled (o : RangeOrder) (ho : o.Valid) (acc : ReposV1)
    (e : RepoName × RepoV1) (h : Settled acc e) :
    mergeEntry LoopVar.perIteration o acc e = acc := by
  rcases h with h | h
  · simp [mergeEntry, h]
  · exact mergeEntry_known_url o ho acc e h

theorem Settled_append (acc : ReposV1) (e x : RepoName × RepoV1)
    (h : Settled acc e) : Settled (acc ++ [x]) e := by
  rcases h with h | h
  · left
    obtain ⟨k1, v1⟩ := x
    rw [read_append_single]
    cases hk : acc.read e.1 with
    | some v => rfl
    | none => rw [hk] at h; cases h
  · right
    rw [urls_append_single]
    exact List.mem_append_left _ h

theorem Settled_mergeEntry (lv : LoopVar) (o : RangeOrder) (acc : ReposV1)
    (e x : RepoName × RepoV1) (h : Settled acc e) : Settled (mergeEntry lv o acc x) e := by
  rcases mergeEntry_cases lv o acc x with h1 | ⟨_, _, h3⟩
  · rw [h1]; exact h
  · rw [h3]; exact Settled_append acc e x h

theorem Settled_mergeLoop (lv : LoopVar) (orders : Nat → RangeOrder)
    (e : RepoName × RepoV1) (es : List (RepoName × RepoV1)) :
    ∀ (i : Nat) (acc : ReposV1), Settled acc e → Settled (mergeLoop lv orders i acc es) e := by
  induction es with
  | nil => intro i acc h; simpa [mergeLoop] using h
  | cons x es ih =>
    intro i acc h
    simp only [mergeLoop]
    exact ih (i + 1) _ (Settled_mergeEntry lv (orders i) acc e x h)

/-- A visited entry is settled right after its visit. -/
theorem Settled_after_visit (o : RangeOrder) (ho : o.Valid) (acc : ReposV1)
    (e : RepoName × RepoV1) : Settled (mergeEntry LoopVar.perIteration o acc e) e := by
  by_cases hs : Settled acc e
  · rw [mergeEntry_settled o ho acc e hs]; exact hs
  · have hk : acc.read e.1 = none := by
      cases hk : acc.read e.1 with
      | none => rfl
      | some v => exact absurd (Or.inl (by rw [hk]; rfl)) hs
    have hu : e.2.url ∉ acc.urls := fun hc => hs (Or.inr hc)
    rw [mergeEntry_new LoopVar.perIteration o ho acc e hk hu]
    right
    rw [urls_append_single]
    simp

/-- With one variable per iteration every visited entry is settled in the
result of the loop. -/
theorem Settled_of_visited (orders : Nat → RangeOrder) (ho : ∀ i, (orders i).Valid)
    (es : List (RepoName × RepoV1)) :
    ∀ (i : Nat) (acc : ReposV1), ∀ e ∈ es,
      Settled (mergeLoop LoopVar.perIteration orders i acc es) e := by
  induction es with
  | nil => intro i acc e he; simp at he
  | cons x es ih =>
    intro i acc e he
    simp only [mergeLoop]
    rcases List.mem_cons.1 he with h | h
    · subst h
      exact Settled_mergeLoop _ orders e es (i + 1) _ (Settled_after_visit (orders i) (ho i) acc e)
    · exact ih (i + 1) _ e h

/-- With one variable per iteration the loop changes nothing when every
entry it visits is settled. -/
theorem mergeLoop_of_settled (orders : Nat → RangeOrder) (ho : ∀ i, (orders i).Valid)
    (es : List (RepoName × RepoV1)) :
    ∀ (i : Nat) (acc : ReposV1), (∀ e ∈ es, Settled acc e) →
      mergeLoop LoopVar.perIteration orders i acc es = acc := by
  induction es with
  | nil => intro i acc _; rfl
  | cons x es ih =>
    intro i acc h
    simp only [mergeLoop]
    rw [mergeEntry_settled (orders i) (ho i) acc x (h x (List.mem_cons_self _ _))]
    exact ih (i + 1) acc (fun e he => h e (List.mem_cons_of_mem _ he))

theorem mem_of_lookup (l : List (RepoName × RepoV1)) (k : RepoName) (v : RepoV1)
    (h : List.lookup k l = some v) : (k, v) ∈ l := by
  obtain ⟨l1, l2, hl, _⟩ := List.lookup_eq_some_iff.1 h
  rw [hl]
  simp

/-- With one variable per iteration the loop of MergeBE only appends, and
what it appends has keys and URLs that are new and pairwise distinct. -/
theorem mergeLoop_appends (orders : Nat → RangeOrder) (ho : ∀ i, (orders i).Valid)
    (es : List (RepoName × RepoV1)) :
    ∀ (i : Nat) (acc : ReposV1), ∃ ins : ReposV1,
      mergeLoop LoopVar.perIteration orders i acc es = acc ++ ins ∧
      (∀ e ∈ ins, acc.read e.1 = none ∧ e.2.url ∉ acc.urls) ∧
      (ins.map Prod.fst).Nodup ∧ (ins.map (fun e => e.2.url)).Nodup := by
  induction es with
  | nil => intro i acc; exact ⟨[], by simp [mergeLoop], by simp, by simp, by simp⟩
  | cons x es ih =>
    intro i acc
    simp only [mergeLoop]
    rcases mergeEntry_cases LoopVar.perIteration (orders i) acc x with h1 | ⟨hk, hf, h3⟩
    · rw [h1]; exact ih (i + 1) acc
    · have hu : x.2.url ∉ acc.urls := by
        intro hc
        have := Find_accValues_perIteration (orders i) (ho i) acc x.2.url hc
        simp only [RepoV1.url] at this
        rw [hf] at this
        cases this
      obtain ⟨ins, hins, hnew, hkeys, hurls⟩ := ih (i + 1) (acc ++ [x])
      obtain ⟨k1, v1⟩ := x
      have hsplit : ∀ e ∈ ins, acc.read e.1 = none ∧ e.1 ≠ k1 ∧
          e.2.url ∉ acc.urls ∧ e.2.url ≠ v1.url := by
        intro e he
        obtain ⟨hg, hnu⟩ := hnew e he
        rw [read_append_single] at hg
        rw [urls_append_single] at hnu
        simp only [List.mem_append, List.mem_singleton, not_or] at hnu
        cases hacc : acc.read e.1 with
        | some w => rw [hacc] at hg; cases hg
        | none =>
          rw [hacc] at hg
          refine ⟨rfl, ?_, hnu.1, hnu.2⟩
          intro hc
          simp [hc] at hg
      refine ⟨(k1, v1) :: ins, ?_, ?_, ?_, ?_⟩
      · rw [h3, hins]; simp
      · intro e he
        rcases List.mem_cons.1 he with h | h
        · subst h; exact ⟨hk, hu⟩
        · exact ⟨(hsplit e h).1, (hsplit e h).2.2.1⟩
      · simp only [List.map_cons, List.nodup_cons]
        refine ⟨?_, hkeys⟩
        intro hc
        obtain ⟨e, he, hek⟩ := List.mem_map.1 hc
        exact (hsplit e he).2.1 hek
      · simp only [List.map_cons, List.nodup_cons]
        refine ⟨?_, hurls⟩
        intro hc
        obtain ⟨e, he, heu⟩ := List.mem_map.1 hc
        exact (hsplit e he).2.2.2 heu

/-- On a pointer to a map that is not nil no visit panics. -/
theorem mergeVisits_map (lv : LoopVar) (orders : Nat → RangeOrder)
    (es : List (RepoName × RepoV1)) : ∀ (i : Nat) (acc : ReposV1),
    mergeVisits lv orders i (ReposPtr.map acc) es
      = some (ReposPtr.map (mergeLoop lv orders i acc es)) := by
  induction es with
  | nil => intro i acc; rfl
  | cons e es ih =>
    intro i acc
    simp only [mergeVisits, mergeVisit, Option.some_bind, mergeLoop, ih]

theorem MergeBE_some (lv : LoopVar) (orders : Nat → RangeOrder) (b : ReposV1)
    (repos : List ReposV1) :
    MergeBE lv orders (ReposPtr.map b) repos
      = some (ReposPtr.map (mergeLoop lv orders 0 b repos.flatten)) :=
  mergeVisits_map lv orders repos.flatten 0 b

/-- Without a map to assign to, the nil pointer or a pointer to a nil map,
the first visit of MergeBE panics, for both loop-variable meanings. -/
theorem MergeBE_without_map (lv : LoopVar) (orders : Nat → RangeOrder) (repos : List ReposV1)
    (hne : repos.flatten ≠ []) :
    MergeBE lv orders ReposPtr.nil repos = none ∧
      MergeBE lv orders ReposPtr.nilMap repos = none := by
  unfold MergeBE
  cases h : repos.flatten with
  | nil => exact absurd h hne
  | cons e es =>
    constructor
    · rfl
    · cases lv <;>
        simp [mergeVisits, mergeVisit, ReposV1.read, accValues, rangeAddrs, lo.Find]

/-- A pointer to a nil map and one local entry: the assignment panics. A
pointer to an empty map that is not nil takes the entry. -/
theorem MergeBE_nil_map_run :
    MergeBE LoopVar.perLoop (fun _ => listOrder) ReposPtr.nilMap
        [[("a", gitRepo "gh.com:org/a.git")]] = none ∧
    MergeBE LoopVar.perLoop (fun _ => listOrder) ReposPtr.nil
        [[("a", gitRepo "gh.com:org/a.git")]] = none ∧
    MergeBE LoopVar.perLoop (fun _ => listOrder) (ReposPtr.map [])
        [[("a", gitRepo "gh.com:org/a.git")]]
      = some (ReposPtr.map [("a", gitRepo "gh.com:org/a.git")]) := by
  decide

/-- With nothing to visit MergeBE returns r.acc as it is. -/
theorem MergeBE_nothing_to_visit (lv : LoopVar) (orders : Nat → RangeOrder) (acc : ReposPtr)
    (repos : List ReposV1) (hnil : repos.flatten = []) :
    MergeBE lv orders acc repos = some acc := by
  simp [MergeBE, hnil, mergeVisits]

end repoMerger

/-! ## Lemmas on strings -/

namespace strings

theorem containsChars_iff (s sub : List Char) : containsChars s sub = true ↔ sub <:+: s := by
  induction s with
  | nil =>
    cases sub <;> simp [containsChars]
  | cons c s ih =>
    simp only [containsChars, Bool.or_eq_true, ih, List.infix_cons_iff, List.isPrefixOf_iff_prefix]

theorem containsChars_eq_false_iff (s sub : List Char) :
    containsChars s sub = false ↔ ¬ sub <:+: s := by
  rw [← containsChars_iff]; simp

/-- An occurrence of pat in a ++ b lies in a, or in b, or covers the last
character of a and the first of b. -/
theorem occurrence_append_cases (pat a b : List Char) (h : pat <:+: a ++ b) :
    pat <:+: a ∨ pat <:+: b ∨
      ∃ y x, a.getLast? = some y ∧ b.head? = some x ∧ y ∈ pat ∧ x ∈ pat := by
  obtain ⟨s, t, hst⟩ := h
  rw [List.append_assoc] at hst
  rcases List.append_eq_append_iff.1 hst with ⟨a1, ha, hb⟩ | ⟨c1, hs, hb⟩
  · -- a = s ++ a1 and pat ++ t = a1 ++ b
    rcases List.append_eq_append_iff.1 hb with ⟨d, hpat, hbb⟩ | ⟨d, ha1, ht⟩
    · -- a1 = pat ++ d
      left
      exact ⟨s, d, by rw [ha, hpat, List.append_assoc]⟩
    · -- pat = a1 ++ d and b = d ++ t
      cases a1 with
      | nil =>
        right; left
        exact ⟨[], t, by simpa [ha1] using ht.symm⟩
      | cons y0 a2 =>
        cases d with
        | nil =>
          left
          exact ⟨s, [], by simp [ha, ha1]⟩
        | cons x d2 =>
          right; right
          refine ⟨(y0 :: a2).getLast (by simp), x, ?_, ?_, ?_, ?_⟩
          · rw [ha, List.getLast?_append_of_ne_nil _ (by simp)]
            exact List.getLast?_eq_getLast _ _
          · rw [ht]; rfl
          · rw [ha1]
            exact List.mem_append_left _ (List.getLast_mem _)
          · rw [ha1]; simp
  · right; left
    exact ⟨c1, t, by rw [hb, List.append_assoc]⟩

theorem splitChars_skip (sep : List Char) (xs rest : List Char) :
    splitChars sep xs.length (xs ++ rest) = splitChars sep 0 rest := by
  induction xs with
  | nil => rfl
  | cons x xs ih => simpa [splitChars] using ih

theorem splitChars_cons_zero (sep : List Char) (c : Char) (s : List Char) :
    splitChars sep 0 (c :: s)
      = if sep.isPrefixOf (c :: s) = true then [] :: splitChars sep (sep.length - 1) s
        else consHead c (splitChars sep 0 s) := by
  simp only [splitChars]

/-- A separator at the front gives an empty first segment. -/
theorem splitChars_sep (c : Char) (sep rest : List Char) :
    splitChars (c :: sep) 0 ((c :: sep) ++ rest) = [] :: splitChars (c :: sep) 0 rest := by
  have hp : (c :: sep).isPrefixOf (c :: (sep ++ rest)) = true := by
    rw [List.isPrefixOf_iff_prefix]
    exact ⟨rest, rfl⟩
  show splitChars (c :: sep) 0 (c :: (sep ++ rest)) = _
  rw [splitChars_cons_zero, if_pos hp]
  show [] :: splitChars (c :: sep) sep.length (sep ++ rest) = _
  rw [splitChars_skip]

/-- A separator is not found inside a block that lacks its first
character. -/
theorem splitChars_before (c : Char) (sep t rest : List Char) (hc : c ∉ t) :
    splitChars (c :: sep) 0 (t ++ (c :: sep) ++ rest)
      = t :: splitChars (c :: sep) 0 rest := by
  induction t with
  | nil => simpa using splitChars_sep c sep rest
  | cons x t ih =>
    have hx : x ≠ c := fun h => hc (by simp [h])
    have ht : c ∉ t := fun h => hc (List.mem_cons_of_mem _ h)
    have hp : ¬ (c :: sep).isPrefixOf (x :: (t ++ (c :: sep) ++ rest)) = true := by
      simp [List.isPrefixOf, Ne.symm hx]
    show splitChars (c :: sep) 0 (x :: (t ++ (c :: sep) ++ rest)) = _
    rw [splitChars_cons_zero, if_neg hp, ih ht]
    rfl

/-- A string without the separator is its own single segment. -/
theorem splitChars_none (sep s : List Char) (h : containsChars s sep = false) :
    splitChars sep 0 s = [s] := by
  induction s with
  | nil => rfl
  | cons c s ih =>
    simp only [containsChars, Bool.or_eq_false_iff] at h
    have hp : ¬ sep.isPrefixOf (c :: s) = true := by simp [h.1]
    rw [splitChars_cons_zero, if_neg hp, ih h.2]
    rfl

theorem containsChars_of_not_mem (c : Char) (sep s : List Char) (hc : c ∉ s) :
    containsChars s (c :: sep) = false := by
  rw [containsChars_eq_false_iff]
  rintro ⟨a, b, hab⟩
  apply hc
  rw [← hab]
  simp

theorem splitChars_ne_nil (sep : List Char) : ∀ (n : Nat) (s : List Char),
    splitChars sep n s ≠ [] := by
  intro n s
  induction s generalizing n with
  | nil => simp [splitChars]
  | cons c s ih =>
    cases n with
    | succ n => simpa [splitChars] using ih n
    | zero =>
      rw [splitChars_cons_zero]
      split
      · simp
      · cases h : splitChars sep 0 s with
        | nil => exact absurd h (ih 0)
        | cons seg segs => simp [consHead]

/-- When there are two segments or more, the string is the first segment,
the separator and a rest. -/
theorem splitChars_two (sep : List Char) (s seg0 seg1 : List Char) (more : List (List Char))
    (h : splitChars sep 0 s = seg0 :: seg1 :: more) : ∃ rest, s = seg0 ++ sep ++ rest := by
  induction s generalizing seg0 with
  | nil => simp [splitChars] at h
  | cons c s ih =>
    rw [splitChars_cons_zero] at h
    by_cases hp : sep.isPrefixOf (c :: s) = true
    · rw [if_pos hp] at h
      obtain ⟨rest, hrest⟩ := List.isPrefixOf_iff_prefix.1 hp
      have h0 : seg0 = [] := by
        have := (List.cons.inj h).1
        exact this.symm
      exact ⟨rest, by rw [h0]; simpa using hrest.symm⟩
    · rw [if_neg hp] at h
      cases hs : splitChars sep 0 s with
      | nil => exact absurd hs (splitChars_ne_nil sep 0 s)
      | cons seg segs =>
        rw [hs] at h
        simp only [consHead, List.cons.injEq] at h
        obtain ⟨h0, hsegs⟩ := h
        rw [hsegs] at hs
        obtain ⟨rest, hrest⟩ := ih seg hs
        exact ⟨rest, by rw [← h0, hrest]; simp⟩

/-- An occurrence of a non-empty pat in a ++ b lies in a or ends in b. -/
theorem occurrence_append_last (pat a b : List Char) (h : pat <:+: a ++ b) :
    pat <:+: a ∨ ∃ z, pat.getLast? = some z ∧ z ∈ b := by
  obtain ⟨s, t, hst⟩ := h
  rw [List.append_assoc] at hst
  rcases List.append_eq_append_iff.1 hst with ⟨a1, ha, hb⟩ | ⟨c1, hs, hb⟩
  · rcases List.append_eq_append_iff.1 hb with ⟨d, hpat, hbb⟩ | ⟨d, ha1, ht⟩
    · left
      exact ⟨s, d, by rw [ha, hpat, List.append_assoc]⟩
    · cases d with
      | nil =>
        left
        exact ⟨s, [], by simp [ha, ha1]⟩
      | cons x d2 =>
        right
        refine ⟨(x :: d2).getLast (by simp), ?_, ?_⟩
        · rw [ha1, List.getLast?_append_of_ne_nil _ (by simp)]
          exact List.getLast?_eq_getLast _ _
        · rw [ht]
          exact List.mem_append_left _ (List.getLast_mem _)
  · cases pat with
    | nil => left; exact List.nil_infix
    | cons x pat2 =>
      right
      refine ⟨(x :: pat2).getLast (by simp), List.getLast?_eq_getLast _ _, ?_⟩
      rw [hb]
      exact List.mem_append_right _ (List.mem_append_left _ (List.getLast_mem _))

/-- The shape of strings.Split for a separator that is not empty. -/
theorem Split_eq (s sep : String) (c : Char) (sep1 : List Char) (hsep : sep.data = c :: sep1) :
    Split s sep = (splitChars (c :: sep1) 0 s.data).map String.mk := by
  simp [Split, hsep]

/-- Splitting a string that is a block without the first character of the
separator, the separator, and a rest without the separator. -/
theorem Split_one_sep (s sep : String) (c : Char) (sep1 t rest : List Char)
    (hsep : sep.data = c :: sep1) (hs : s.data = t ++ (c :: sep1) ++ rest) (hc : c ∉ t)
    (hrest : containsChars rest (c :: sep1) = false) :
    Split s sep = [String.mk t, String.mk rest] := by
  rw [Split_eq s sep c sep1 hsep, hs, splitChars_before c sep1 t rest hc,
    splitChars_none _ _ hrest]
  rfl

/-- A pattern whose last character is none of those of .git occurs in
P followed by .git only if it occurs in P. -/
theorem containsChars_append_git (P pat : List Char) (hP : containsChars P pat = false)
    (hlast : ∀ z, pat.getLast? = some z → z ∉ ['.', 'g', 'i', 't']) :
    containsChars (P ++ ['.', 'g', 'i', 't']) pat = false := by
  rw [containsChars_eq_false_iff] at hP ⊢
  intro h
  rcases occurrence_append_last pat P _ h with h1 | ⟨z, hz, hzG⟩
  · exact hP h1
  · exact hlast z hz hzG

end strings

/-- The SSH form of a repository URL is not taken for the HTTPS form when
neither host nor path contains http. -/
theorem ssh_form_no_http (H P : List Char)
    (hH : strings.containsChars H ['h', 't', 't', 'p'] = false)
    (hP : strings.containsChars P ['h', 't', 't', 'p'] = false) :
    strings.containsChars
      ((['g', 'i', 't', '@'] ++ H) ++ ['.', 'c', 'o', 'm', ':'] ++ (P ++ ['.', 'g', 'i', 't']))
      ['h', 't', 't', 'p'] = false := by
  have h1 : strings.containsChars (P ++ ['.', 'g', 'i', 't']) ['h', 't', 't', 'p'] = false :=
    strings.containsChars_append_git P _ hP (by
      intro z hz
      have : z = 'p' := by simpa using hz.symm
      subst this
      decide)
  rw [strings.containsChars_eq_false_iff] at hH h1 ⊢
  have h2 : ¬ ['h', 't', 't', 'p'] <:+: ['.', 'c', 'o', 'm', ':'] ++ (P ++ ['.', 'g', 'i', 't']) := by
    intro h
    rcases strings.occurrence_append_cases _ _ _ h with h | h | ⟨y, x, hy, _, hyp, _⟩
    · revert h; rw [← strings.containsChars_iff]; decide
    · exact h1 h
    · have : y = ':' := by simpa using hy.symm
      subst this
      revert hyp; decide
  have h3 : ¬ ['h', 't', 't', 'p'] <:+:
      H ++ (['.', 'c', 'o', 'm', ':'] ++ (P ++ ['.', 'g', 'i', 't'])) := by
    intro h
    rcases strings.occurrence_append_cases _ _ _ h with h | h | ⟨y, x, _, hx, _, hxp⟩
    · exact hH h
    · exact h2 h
    · have : x = '.' := by simpa using hx.symm
      subst this
      revert hxp; decide
  intro h
  have h' : ['h', 't', 't', 'p'] <:+:
      ['g', 'i', 't', '@'] ++ (H ++ (['.', 'c', 'o', 'm', ':'] ++ (P ++ ['.', 'g', 'i', 't']))) := by
    simpa [List.append_assoc] using h
  rcases strings.occurrence_append_cases _ _ _ h' with h | h | ⟨y, x, hy, _, hyp, _⟩
  · revert h; rw [← strings.containsChars_iff]; decide
  · exact h3 h
  · have : y = '@' := by simpa using hy.symm
    subst this
    revert hyp; decide

/-! ## Lemmas on ValidateGitURL -/

theorem mk_data (s : String) : String.mk s.data = s := rfl

theorem https_form_data (h p : String) :
    ("https://" ++ h ++ ".com/" ++ p ++ ".git").data
      = (['h', 't', 't', 'p', 's', ':', '/', '/'] ++ h.data) ++ ['.', 'c', 'o', 'm', '/']
          ++ (p.data ++ ['.', 'g', 'i', 't']) := by
  simp only [String.data_append, List.append_assoc]

theorem ssh_form_data (h p : String) :
    ("git@" ++ h ++ ".com:" ++ p ++ ".git").data
      = (['g', 'i', 't', '@'] ++ h.data) ++ ['.', 'c', 'o', 'm', ':']
          ++ (p.data ++ ['.', 'g', 'i', 't']) := by
  simp only [String.data_append, List.append_assoc]

/-- The HTTPS branch on the HTTPS form. -/
theorem ValidateGitURL_https_form (h p : String) (hdot : '.' ∉ h.data) (hcolon : ':' ∉ h.data)
    (hp1 : strings.Contains p ".com/" = false) :
    ValidateGitURL ("https://" ++ h ++ ".com/" ++ p ++ ".git") = normalised h p := by
  have hU := https_form_data h p
  have hc : strings.Contains ("https://" ++ h ++ ".com/" ++ p ++ ".git") "http" = true := by
    simp only [strings.Contains, hU]
    rfl
  have hrest : strings.containsChars (p.data ++ ['.', 'g', 'i', 't']) ['.', 'c', 'o', 'm', '/']
      = false :=
    strings.containsChars_append_git p.data _ hp1 (by
      intro z hz
      have : z = '/' := by simpa using hz.symm
      subst this
      decide)
  have hsplit : strings.Split ("https://" ++ h ++ ".com/" ++ p ++ ".git") ".com/"
      = [String.mk (['h', 't', 't', 'p', 's', ':', '/', '/'] ++ h.data),
         String.mk (p.data ++ ['.', 'g', 'i', 't'])] :=
    strings.Split_one_sep _ ".com/" '.' ['c', 'o', 'm', '/'] _ _ rfl hU
      (by simp [hdot]) hrest
  have hprov : strings.Split (String.mk (['h', 't', 't', 'p', 's', ':', '/', '/'] ++ h.data)) "://"
      = [String.mk ['h', 't', 't', 'p', 's'], String.mk h.data] :=
    strings.Split_one_sep _ "://" ':' ['/', '/'] ['h', 't', 't', 'p', 's'] h.data rfl rfl
      (by decide) (strings.containsChars_of_not_mem ':' _ _ hcolon)
  have hpath : String.mk (p.data ++ ['.', 'g', 'i', 't']) = p ++ ".git" := rfl
  have hgit : strings.Contains (p ++ ".git") ".git" = true := by
    simp only [strings.Contains, strings.containsChars_iff, String.data_append]
    exact ⟨p.data, [], by simp⟩
  unfold ValidateGitURL
  rw [if_pos hc]
  simp only [hsplit, hprov, hpath, mk_data, List.getElem?_cons_zero, List.getElem?_cons_succ,
    Option.some_bind, Option.bind_eq_bind, hgit, if_true]
  rfl

/-- The SSH branch on the SSH form. -/
theorem ValidateGitURL_ssh_form (h p : String) (hdot : '.' ∉ h.data) (hat : '@' ∉ h.data)
    (hh : strings.Contains h "http" = false) (hp : strings.Contains p "http" = false)
    (hp2 : strings.Contains p ".com:" = false) :
    ValidateGitURL ("git@" ++ h ++ ".com:" ++ p ++ ".git") = normalised h p := by
  have hU := ssh_form_data h p
  have hc : ¬ strings.Contains ("git@" ++ h ++ ".com:" ++ p ++ ".git") "http" = true := by
    simp only [strings.Contains, hU, Bool.not_eq_true]
    exact ssh_form_no_http h.data p.data hh hp
  have hrest : strings.containsChars (p.data ++ ['.', 'g', 'i', 't']) ['.', 'c', 'o', 'm', ':']
      = false :=
    strings.containsChars_append_git p.data _ hp2 (by
      intro z hz
      have : z = ':' := by simpa using hz.symm
      subst this
      decide)
  have hsplit : strings.Split ("git@" ++ h ++ ".com:" ++ p ++ ".git") ".com:"
      = [String.mk (['g', 'i', 't', '@'] ++ h.data),
         String.mk (p.data ++ ['.', 'g', 'i', 't'])] :=
    strings.Split_one_sep _ ".com:" '.' ['c', 'o', 'm', ':'] _ _ rfl hU
      (by simp [hdot]) hrest
  have hprov : strings.Split (String.mk (['g', 'i', 't', '@'] ++ h.data)) "@"
      = [String.mk ['g', 'i', 't'], String.mk h.data] :=
    strings.Split_one_sep _ "@" '@' [] ['g', 'i', 't'] h.data rfl rfl
      (by decide) (strings.containsChars_of_not_mem '@' _ _ hat)
  have hpath : String.mk (p.data ++ ['.', 'g', 'i', 't']) = p ++ ".git" := rfl
  unfold ValidateGitURL
  rw [if_neg hc]
  simp only [hsplit, hprov, hpath, mk_data, List.getElem?_cons_zero, List.getElem?_cons_succ,
    Option.some_bind, Option.bind_eq_bind]
  rfl
/-- The first segment of a split by a non-empty separator always exists. -/
theorem Split_first (s sep : String) (c : Char) (sep1 : List Char) (hsep : sep.data = c :: sep1) :
    ∃ x, (strings.Split s sep)[0]? = some x := by
  rw [strings.Split_eq s sep c sep1 hsep]
  cases h : strings.splitChars (c :: sep1) 0 s.data with
  | nil => exact absurd h (strings.splitChars_ne_nil _ _ _)
  | cons seg segs => exact ⟨String.mk seg, by simp⟩

theorem normalised_isSome (h p : String) :
    ∃ w, normalised h p = some w ∧ w.GitRepo = h ++ ".com:" ++ (p ++ ".git") := by
  obtain ⟨x, hx⟩ := Split_first (p ++ ".git") ".git" '.' ['g', 'i', 't'] rfl
  exact ⟨{ GitRepo := h ++ ".com:" ++ (p ++ ".git"), Name := x },
    by simp only [normalised, hx, Option.some_bind], rfl⟩

theorem two_of_map_index_one {α β : Type} (f : α → β) (l : List α) (y : β)
    (h : (l.map f)[1]? = some y) : ∃ a b more, l = a :: b :: more := by
  rcases l with _ | ⟨a, _ | ⟨b, more⟩⟩
  · simp at h
  · simp at h
  · exact ⟨a, b, more, rfl⟩

/-- A string with a second segment has a separator after its first
segment. -/
theorem Split_index_one (s sep : String) (c : Char) (sep1 : List Char)
    (hsep : sep.data = c :: sep1) (s0 y : String)
    (h0 : (strings.Split s sep)[0]? = some s0) (h1 : (strings.Split s sep)[1]? = some y) :
    ∃ rest, s.data = s0.data ++ (c :: sep1) ++ rest := by
  rw [strings.Split_eq s sep c sep1 hsep] at h0 h1
  obtain ⟨a, b, more, hab⟩ := two_of_map_index_one _ _ _ h1
  rw [hab] at h0
  have hs0 : s0 = String.mk a := by simpa using h0.symm
  obtain ⟨rest, hrest⟩ := strings.splitChars_two _ _ _ _ _ hab
  exact ⟨rest, by rw [hs0]; exact hrest⟩

/-- When the SSH branch of ValidateGitURL returns a result, the URL has an
at sign and, somewhere after it, a colon. -/
theorem ValidateGitURL_ssh_marker (url : String) (w : NewWorkspace)
    (hc : strings.Contains url "http" = false) (hw : ValidateGitURL url = some w) :
    ∃ x y z, url.data = x ++ '@' :: (y ++ ':' :: z) := by
  unfold ValidateGitURL at hw
  rw [if_neg (by simp [hc])] at hw
  simp only [Option.bind_eq_bind, Option.bind_eq_some] at hw
  obtain ⟨s0, h0, prov, hprov, s1, h1, _⟩ := hw
  obtain ⟨rest, hrest⟩ := Split_index_one url ".com:" '.' ['c', 'o', 'm', ':'] rfl s0 s1 h0 h1
  obtain ⟨t0, ht0⟩ := Split_first s0 "@" '@' [] rfl
  obtain ⟨r, hr⟩ := Split_index_one s0 "@" '@' [] rfl t0 prov ht0 hprov
  refine ⟨t0.data, r ++ ['.', 'c', 'o', 'm'], rest, ?_⟩
  rw [hrest, hr]
  simp

/-! ## Lemmas on polling -/

/-- The loop entered after i fetches, when the k-th fetch from there is the
first decisive one and the fuel allows k + 1 iterations. -/
theorem pollLoop_first_decisive {E : Type} (wrapAndTrace : E → E) (state : String)
    (getWorkspace : Nat → Fetched E) (k : Nat) :
    ∀ (fuel i : Nat), (∀ j, j < k → decisive state (getWorkspace (i + j)) = false) →
      decisive state (getWorkspace (i + k)) = true → k < fuel →
      pollLoop wrapAndTrace state getWorkspace fuel i
        = some (i + k + 1, pollResult wrapAndTrace (getWorkspace (i + k))) := by
  induction k with
  | zero =>
    intro fuel i _ hk hfuel
    obtain ⟨f, rfl⟩ : ∃ f, fuel = f + 1 := ⟨fuel - 1, by omega⟩
    simp only [Nat.add_zero] at hk ⊢
    simp only [pollLoop]
    cases hg : getWorkspace i with
    | error err => rfl
    | ok ws =>
      rw [hg] at hk
      have : ws.Status = state := by simpa [decisive] using hk
      simp [this, pollResult]
  | succ k ih =>
    intro fuel i hbefore hk hfuel
    obtain ⟨f, rfl⟩ : ∃ f, fuel = f + 1 := ⟨fuel - 1, by omega⟩
    have h0 := hbefore 0 (by omega)
    simp only [Nat.add_zero] at h0
    simp only [pollLoop]
    cases hg : getWorkspace i with
    | error err => rw [hg] at h0; simp [decisive] at h0
    | ok ws =>
      rw [hg] at h0
      have hne : ¬ ws.Status = state := by simpa [decisive] using h0
      simp only [hne, if_false]
      have hidx : i + 1 + k = i + (k + 1) := by omega
      rw [ih f (i + 1) (fun j hj => by
          have := hbefore (j + 1) (by omega)
          rwa [show i + (j + 1) = i + 1 + j by omega] at this)
        (by rw [hidx]; exact hk) (by omega), hidx]

/-- Without a decisive fetch the loop is still going when the fuel is
spent, however much there was. -/
theorem pollLoop_no_decisive {E : Type} (wrapAndTrace : E → E) (state : String)
    (getWorkspace : Nat → Fetched E) (hnone : ∀ i, decisive state (getWorkspace i) = false) :
    ∀ (fuel i : Nat), pollLoop wrapAndTrace state getWorkspace fuel i = none := by
  intro fuel
  induction fuel with
  | zero => intro i; rfl
  | succ f ih =>
    intro i
    have h0 := hnone i
    simp only [pollLoop]
    cases hg : getWorkspace i with
    | error err => rw [hg] at h0; simp [decisive] at h0
    | ok ws =>
      rw [hg] at h0
      have hne : ¬ ws.Status = state := by simpa [decisive] using h0
      simp only [hne, if_false]
      exact ih (i + 1)

/-! ## Lemmas on the start command -/

/-- The three store calls of the lookup by name in startWorkspace. -/
theorem startWorkspace_of_count {E : Type} (ops : ErrorOps E) (store : StartStore E) (fuel : Nat)
    (workspaceName : String) (org : Organization) (user : User) (workspaces : List Workspace)
    (horg : store.GetActiveOrganizationOrDefault = Except.ok (some org))
    (huser : store.GetCurrentUser = Except.ok user)
    (hws : store.GetWorkspaces org.ID { UserID := user.ID, Name := workspaceName }
      = Except.ok workspaces)
    (hcount : workspaces.length ≠ 1) :
    startWorkspace ops store fuel workspaceName
      = some ⟨[StoreCall.GetActiveOrganizationOrDefault, StoreCall.GetCurrentUser,
          StoreCall.GetWorkspaces org.ID { UserID := user.ID, Name := workspaceName }],
        some (ops.Errorf ((if workspaces.length = 0 then "no workspace found of name "
          else "more than 1 workspace found of name ") ++ workspaceName))⟩ := by
  simp only [startWorkspace, horg, huser, hws]
  by_cases h0 : workspaces.length = 0
  · simp [h0]
  · have h1 : workspaces.length > 1 := by omega
    simp [h0, h1]

/-- With no organization flag and no active organization clone stops after
the organization lookup. -/
theorem clone_of_no_org {E : Type} (ops : ErrorOps E) (defaultClusterID : String)
    (store : StartStore E) (fuel : Nat) (url : String) (formattedURL : NewWorkspace)
    (hurl : ValidateGitURL url = some formattedURL)
    (horg : store.GetActiveOrganizationOrDefault = Except.ok none) :
    clone ops defaultClusterID store fuel url ""
      = some ⟨[StoreCall.GetActiveOrganizationOrDefault], some (ops.Errorf "no org exist")⟩ := by
  simp [clone, hurl, horg]

/-- An error of CreateWorkspace does not reach the caller of clone. -/
theorem clone_of_create_error {E : Type} (ops : ErrorOps E) (defaultClusterID : String)
    (store : StartStore E) (fuel : Nat) (url : String) (formattedURL : NewWorkspace)
    (activeorg : Organization) (err : E)
    (hurl : ValidateGitURL url = some formattedURL)
    (horg : store.GetActiveOrganizationOrDefault = Except.ok (some activeorg))
    (hcreate : store.CreateWorkspace activeorg.ID
      { ClusterID := defaultClusterID, Name := formattedURL.Name, GitRepo := formattedURL.GitRepo }
      = Except.error err) :
    clone ops defaultClusterID store fuel url ""
      = some ⟨[StoreCall.GetActiveOrganizationOrDefault,
          StoreCall.CreateWorkspace activeorg.ID
            { ClusterID := defaultClusterID, Name := formattedURL.Name,
              GitRepo := formattedURL.GitRepo }], none⟩ := by
  simp [clone, hurl, horg, createWorkspace, hcreate]

/-- When the polling loop returns nil, the last fetch it made reported the
target status. -/
theorem pollLoop_nil {E : Type} (wrapAndTrace : E → E) (state : String)
    (getWorkspace : Nat → Fetched E) :
    ∀ (fuel i n : Nat), pollLoop wrapAndTrace state getWorkspace fuel i = some (n, none) →
      ∃ j ws, n = j + 1 ∧ getWorkspace j = Except.ok ws ∧ ws.Status = state := by
  intro fuel
  induction fuel with
  | zero => intro i n h; simp [pollLoop] at h
  | succ f ih =>
    intro i n h
    simp only [pollLoop] at h
    cases hg : getWorkspace i with
    | error err => rw [hg] at h; simp at h
    | ok ws =>
      rw [hg] at h
      by_cases hs : ws.Status = state
      · simp only [hs, if_true, Option.some.injEq, Prod.mk.injEq, and_true] at h
        exact ⟨i, ws, h.symm, hg, hs⟩
      · simp only [hs, if_false] at h
        exact ih (i + 1) n h

/-- The function createWorkspace returns nil only when CreateWorkspace
succeeded and a status fetch for the created workspace reported
RUNNING. -/
theorem createWorkspace_nil {E : Type} (ops : ErrorOps E) (defaultClusterID : String)
    (store : StartStore E) (fuel : Nat) (newworkspace : NewWorkspace) (orgID : String)
    (calls : List StoreCall)
    (h : createWorkspace ops defaultClusterID store fuel newworkspace orgID = some ⟨calls, none⟩) :
    ∃ w, store.CreateWorkspace orgID
        { ClusterID := defaultClusterID, Name := newworkspace.Name,
          GitRepo := newworkspace.GitRepo } = Except.ok w ∧
      ∃ j ws, store.GetWorkspace w.ID j = Except.ok ws ∧ ws.Status = "RUNNING" := by
  simp only [createWorkspace] at h
  cases hc : store.CreateWorkspace orgID
      { ClusterID := defaultClusterID, Name := newworkspace.Name,
        GitRepo := newworkspace.GitRepo } with
  | error err => rw [hc] at h; simp at h
  | ok w =>
    rw [hc] at h
    refine ⟨w, rfl, ?_⟩
    simp only [polled, Option.map_map, Option.map_eq_some'] at h
    obtain ⟨⟨n, perr⟩, hp, hout⟩ := h
    have hnil : perr = none := by
      have := congrArg Outcome.err hout
      simpa [ErrorOps.wrapAndTrace] using this
    subst hnil
    obtain ⟨j, ws, _, hj, hs⟩ := pollLoop_nil ops.WrapAndTrace "RUNNING" _ fuel 0 n hp
    exact ⟨j, ws, hj, hs⟩

/-- An argument that is not taken for a URL makes the start command call
SAMPLE, which makes no store call. -/
theorem NewCmdStart_Run_of_name {E : Type} (ops : ErrorOps E) (defaultClusterID : String)
    (store : StartStore E) (fuel : Nat) (arg org : String)
    (hhttps : strings.Contains arg "https://" = false)
    (hgit : strings.Contains arg "git@" = false) :
    NewCmdStart_Run ops defaultClusterID store fuel arg org = some [] := by
  simp [NewCmdStart_Run, hhttps, hgit, SAMPLE]

/-- The function startWorkspace, which the start command does not call,
looks the workspace up by the given name and starts the single match. -/
theorem startWorkspace_starts_single {E : Type} (ops : ErrorOps E) (store : StartStore E)
    (fuel : Nat) (workspaceName : String) (org : Organization) (user : User)
    (workspace : Workspace) (out : Outcome E)
    (horg : store.GetActiveOrganizationOrDefault = Except.ok (some org))
    (huser : store.GetCurrentUser = Except.ok user)
    (hws : store.GetWorkspaces org.ID { UserID := user.ID, Name := workspaceName }
      = Except.ok [workspace])
    (hout : startWorkspace ops store fuel workspaceName = some out) :
    [StoreCall.GetActiveOrganizationOrDefault, StoreCall.GetCurrentUser,
      StoreCall.GetWorkspaces org.ID { UserID := user.ID, Name := workspaceName },
      StoreCall.StartWorkspace workspace.ID] <+: out.calls := by
  simp only [startWorkspace, horg, huser, hws, List.length_singleton, Nat.one_ne_zero, if_false,
    Nat.lt_irrefl, gt_iff_lt, List.getElem?_cons_zero, Option.some_bind] at hout
  cases hs : store.StartWorkspace workspace.ID with
  | error err =>
    rw [hs] at hout
    simp only [Option.some.injEq] at hout
    rw [← hout]
    exact List.prefix_refl _
  | ok started =>
    rw [hs] at hout
    simp only [Option.map_eq_some'] at hout
    obtain ⟨p, _, hp⟩ := hout
    rw [← hp]
    exact ⟨p.calls, by simp⟩

/-! ## Lemmas on the updatemodel command -/

/-- The walk never assigns the variable remotes of the enclosing
function. -/
theorem WalkDir_keeps_remotes {E : Type} (ops : ErrorOps E) (entries : List (WalkEntry E)) :
    ∀ remotes : List Remote, (WalkDir (walkFn ops) remotes entries).2 = remotes := by
  have hfn : ∀ (remotes : List Remote) (entry : WalkEntry E),
      (walkFn ops remotes entry).remotes = remotes := by
    intro remotes entry
    unfold walkFn
    split
    · rfl
    · split
      · rfl
      · split
        · rfl
        · split <;> rfl
  induction entries with
  | nil => intro remotes; rfl
  | cons entry rest ih =>
    intro remotes
    simp only [WalkDir]
    split
    · exact hfn remotes entry
    · rw [ih, hfn]

/-- The method remotes returns an error or the empty list. -/
theorem remotes_empty {E : Type} (ops : ErrorOps E) (tree : String → List (WalkEntry E))
    (u : updateModel E) (found : List Remote)
    (h : u.remotes ops tree = Except.ok found) : found = [] := by
  simp only [updateModel.remotes] at h
  cases hd : u.Store.UserHomeDir 0 with
  | error err => rw [hd] at h; simp at h
  | ok dir =>
    rw [hd] at h
    simp only at h
    have hk := WalkDir_keeps_remotes ops (tree dir) []
    cases hw : WalkDir (walkFn ops) [] (tree dir) with
    | mk werr remotes =>
      rw [hw] at h hk
      simp only at hk
      cases werr with
      | some err => simp at h
      | none =>
        simp only [Except.ok.injEq] at h
        rw [← h, hk]

/-- The walk function does read the remotes of a repository it opens: they
end up, twice, in its own variable. -/
theorem walkFn_inner {E : Type} (ops : ErrorOps E) (remotes : List Remote) (entry : WalkEntry E)
    (found : List Remote) (herr : entry.err = none) (hdir : entry.isDir = true)
    (hopen : entry.plainOpen = Except.ok (Except.ok found)) :
    walkFn ops remotes entry = ⟨none, remotes, found ++ found⟩ := by
  simp [walkFn, herr, hdir, hopen]

theorem MapFrom_calls {E : Type} (ops : ErrorOps E) (u : updateModel E) (dir : String)
    (toClone : List RepoV1) : ∀ i : Nat,
    (lo.MapFrom (cloneRepo ops u dir) i toClone).map Prod.fst
      = toClone.map (fun repo => (dir, repo.GitRepo.Repository)) := by
  induction toClone with
  | nil => intro i; rfl
  | cons repo rest ih =>
    intro i
    simp only [lo.MapFrom, List.map_cons, ih (i + 1)]
    rfl

/-- The errors collected by the lo.Map are all nil exactly when every clone
call returned nil. -/
theorem MapFrom_errors_nil {E : Type} (ops : ErrorOps E) (u : updateModel E) (dir : String)
    (toClone : List RepoV1) : ∀ i : Nat,
    (∀ err ∈ (lo.MapFrom (cloneRepo ops u dir) i toClone).map Prod.snd, err = none) ↔
      ∀ (j : Nat) (repo : RepoV1), toClone[j]? = some repo →
        u.clone (i + j) dir repo.GitRepo.Repository = none := by
  induction toClone with
  | nil => intro i; simp [lo.MapFrom]
  | cons repo rest ih =>
    intro i
    simp only [lo.MapFrom, List.map_cons, List.mem_cons, forall_eq_or_imp, ih (i + 1)]
    constructor
    · rintro ⟨h0, hrest⟩ j r hj
      cases j with
      | zero =>
        simp only [List.getElem?_cons_zero, Option.some.injEq] at hj
        subst hj
        simpa [cloneRepo, ErrorOps.wrapAndTrace] using h0
      | succ j =>
        simp only [List.getElem?_cons_succ] at hj
        have := hrest j r hj
        rwa [show i + 1 + j = i + (j + 1) by omega] at this
    · intro h
      refine ⟨?_, ?_⟩
      · have := h 0 repo (by simp)
        simpa [cloneRepo, ErrorOps.wrapAndTrace] using this
      · intro j r hj
        have := h (j + 1) r (by simpa using hj)
        rwa [show i + (j + 1) = i + 1 + j by omega] at this

/-- The reduction of the collected errors is nil exactly when it starts
from nil and every collected error is nil. -/
theorem ReduceFrom_joinErrors_nil {E : Type} (ops : ErrorOps E) (errors : List (Option E)) :
    ∀ (i : Nat) (acc : Option E),
      lo.ReduceFrom (joinErrors ops) i acc errors = none ↔
        acc = none ∧ ∀ err ∈ errors, err = none := by
  induction errors with
  | nil => intro i acc; simp [lo.ReduceFrom]
  | cons e rest ih =>
    intro i acc
    simp only [lo.ReduceFrom, ih (i + 1), List.mem_cons, forall_eq_or_imp]
    cases acc <;> cases e <;> simp [joinErrors]

/-- The method RunE once it has reached the clone stage. -/
theorem RunE_at_clone_stage {E : Type} (ops : ErrorOps E) (lv : LoopVar)
    (orders : Nat → RangeOrder) (order : RangeOrder)
    (GetRepoNameFromOrigin GetSSHURLFromOrigin : String → String) (Configure : Option E)
    (tree : String → List (WalkEntry E)) (u : updateModel E)
    (remotes : List Remote) (workspaceID : String) (reposv1FromBE : ReposPtr)
    (urls : List String) (merged : ReposPtr) (dir : String)
    (hconf : u.configure = false)
    (hrem : u.remotes ops tree = Except.ok remotes)
    (hid : u.Store.GetCurrentWorkspaceID = Except.ok workspaceID)
    (hws : u.Store.GetWorkspace workspaceID = Except.ok reposv1FromBE)
    (hurls : (lo.Map remotes (fun remote _ => remote.URLs[0]?)).mapM id = some urls)
    (hmerge : repoMerger.MergeBE lv orders reposv1FromBE
      [makeReposFromRemotes GetRepoNameFromOrigin GetSSHURLFromOrigin urls] = some merged)
    (hmod : u.Store.ModifyWorkspace workspaceID merged = Except.ok ())
    (hdir : u.Store.UserHomeDir 1 = Except.ok dir) :
    u.RunE ops lv orders order GetRepoNameFromOrigin GetSSHURLFromOrigin Configure tree
      = some ⟨[(workspaceID, merged)],
          (lo.Map (repoMerger.ReposToClone lv order merged
            [makeReposFromRemotes GetRepoNameFromOrigin GetSSHURLFromOrigin urls])
            (cloneRepo ops u dir)).map Prod.fst,
          ops.wrapAndTrace (lo.Reduce
            ((lo.Map (repoMerger.ReposToClone lv order merged
              [makeReposFromRemotes GetRepoNameFromOrigin GetSSHURLFromOrigin urls])
              (cloneRepo ops u dir)).map Prod.snd) (joinErrors ops) none)⟩ := by
  simp only [updateModel.RunE, hconf, hrem, hid, hws, hurls, hmerge, hmod, hdir,
    Option.some_bind, Bool.false_eq_true, if_false]

/-- A run of RunE in which the first of two clone calls fails: the second
call is made all the same and the run returns the error. -/
theorem RunE_sample_run :
    (sampleUpdateModel (ReposPtr.map [("a", gitRepo "gh.com:org/a.git"),
        ("c", gitRepo "gh.com:org/c.git")])).RunE messageOps LoopVar.perIteration
      (fun _ => listOrder) listOrder (fun s => s) (fun s => s) none sampleTree
      = some ⟨[("ws1", ReposPtr.map [("a", gitRepo "gh.com:org/a.git"), ("c", gitRepo "gh.com:org/c.git")])],
          [("/home/ubuntu", "gh.com:org/a.git"), ("/home/ubuntu", "gh.com:org/c.git")],
          some "trace: trace: trace: clone failed"⟩ := by
  rfl

/-! ## Claims -/

/-- C2. MergeBE never removes or overwrites a backend entry: whatever the
loop-variable meaning, the range orders and the local maps, MergeBE on a
backend manifest b returns a manifest, and every key that b maps to a
value is mapped to that same value by the returned manifest (also when a
local map has an entry under that key with another URL). -/
theorem MergeBE_keeps_backend_entries (lv : LoopVar) (orders : Nat → RangeOrder)
    (b : ReposV1) (repos : List ReposV1) (k : RepoName) (v : RepoV1)
    (hk : b.read k = some v) :
    ∃ m, repoMerger.MergeBE lv orders (ReposPtr.map b) repos = some (ReposPtr.map m) ∧ m.read k = some v :=
  ⟨_, repoMerger.MergeBE_some lv orders b repos,
    repoMerger.mergeLoop_read_of_some lv orders _ 0 b k v hk⟩

/-- Witness for C2: the backend maps a to the URL u1 and the local map has
an entry under a with the URL u2. -/
theorem MergeBE_keeps_backend_entries_witness :
    ReposV1.read [("a", gitRepo "u1")] "a" = some (gitRepo "u1") ∧
    ∃ m, repoMerger.MergeBE LoopVar.perLoop (fun _ => listOrder) (ReposPtr.map [("a", gitRepo "u1")])
        [[("a", gitRepo "u2"), ("b", gitRepo "u3")]] = some (ReposPtr.map m) ∧
      m.read "a" = some (gitRepo "u1") :=
  ⟨by decide,
    MergeBE_keeps_backend_entries LoopVar.perLoop (fun _ => listOrder) [("a", gitRepo "u1")]
      [[("a", gitRepo "u2"), ("b", gitRepo "u3")]] "a" (gitRepo "u1") (by decide)⟩

/-- C4, as stated, fails: with a backend that declares only x, the local
entry (c, u) has a new key and a new URL, yet MergeBE (for either
loop-variable meaning) visits (a, u) first and then skips c because its
URL is by then in the accumulator: the result has no key c. -/
theorem MergeBE_new_entry_skipped :
    (("c", gitRepo "u") ∈ ([[("a", gitRepo "u"), ("c", gitRepo "u")]] : List ReposV1).flatten ∧
      ReposV1.read [("x", gitRepo "u0")] "c" = none ∧
      (gitRepo "u").url ∉ ReposV1.urls [("x", gitRepo "u0")]) ∧
    repoMerger.MergeBE LoopVar.perIteration (fun _ => listOrder) (ReposPtr.map [("x", gitRepo "u0")])
        [[("a", gitRepo "u"), ("c", gitRepo "u")]]
      = some (ReposPtr.map [("x", gitRepo "u0"), ("a", gitRepo "u")]) ∧
    repoMerger.MergeBE LoopVar.perLoop (fun _ => listOrder) (ReposPtr.map [("x", gitRepo "u0")])
        [[("a", gitRepo "u"), ("c", gitRepo "u")]]
      = some (ReposPtr.map [("x", gitRepo "u0"), ("a", gitRepo "u")]) ∧
    ReposV1.read [("x", gitRepo "u0"), ("a", gitRepo "u")] "c" = none := by
  decide

/-- C4, amended. MergeBE inserts a new local repo under its own key when
the backend manifest is a map that is not nil and no other local entry
competes with the repo: for every such backend manifest b (r.acc points to
a map with the entries b), all local maps and every local entry (k, v)
such that k is not a key of b, the URL of v is the URL of no entry of b,
and no other local entry has the key k or the URL of v, MergeBE returns a
manifest that maps k to v (for either loop-variable meaning and all range
orders). -/
theorem MergeBE_inserts_new_local_entry (lv : LoopVar) (orders : Nat → RangeOrder)
    (ho : ∀ i, (orders i).Valid) (b : ReposV1) (repos : List ReposV1)
    (k : RepoName) (v : RepoV1)
    (hmem : (k, v) ∈ repos.flatten)
    (hkb : b.read k = none)
    (hub : v.url ∉ b.urls)
    (hkey : ∀ e ∈ repos.flatten, e.1 = k → e = (k, v))
    (hurl : ∀ e ∈ repos.flatten, e.2.url = v.url → e = (k, v)) :
    ∃ m, repoMerger.MergeBE lv orders (ReposPtr.map b) repos = some (ReposPtr.map m) ∧ m.read k = some v :=
  ⟨_, repoMerger.MergeBE_some lv orders b repos,
    repoMerger.mergeLoop_inserts lv orders ho k v _ 0 b hkey hurl (Or.inl ⟨hkb, hub, hmem⟩)⟩

/-- Witness for C4 amended: the backend declares x, the local map holds a
(a URL the backend already has) and c (new key, new URL). -/
theorem MergeBE_inserts_new_local_entry_witness :
    ∃ m, repoMerger.MergeBE LoopVar.perLoop (fun _ => listOrder) (ReposPtr.map [("x", gitRepo "u0")])
        [[("a", gitRepo "u0"), ("c", gitRepo "u")]] = some (ReposPtr.map m) ∧
      m.read "c" = some (gitRepo "u") :=
  MergeBE_inserts_new_local_entry LoopVar.perLoop (fun _ => listOrder) (fun _ => listOrder_valid)
    [("x", gitRepo "u0")] [[("a", gitRepo "u0"), ("c", gitRepo "u")]] "c" (gitRepo "u")
    (by decide) (by decide) (by decide) (by decide) (by decide)

/-- C5, as stated, fails: the local entries (a, u) and (c, u) share a URL,
and MergeBE keeps whichever of them is visited first, for either
loop-variable meaning: visiting a first yields a manifest with the key a,
visiting c first one without it. -/
theorem MergeBE_depends_on_visiting_order :
    List.Perm ([[("a", gitRepo "u"), ("c", gitRepo "u")]] : List ReposV1).flatten
      ([[("c", gitRepo "u"), ("a", gitRepo "u")]] : List ReposV1).flatten ∧
    (∀ lv : LoopVar,
      repoMerger.MergeBE lv (fun _ => listOrder) (ReposPtr.map [("x", gitRepo "u0")])
          [[("a", gitRepo "u"), ("c", gitRepo "u")]]
        = some (ReposPtr.map [("x", gitRepo "u0"), ("a", gitRepo "u")]) ∧
      repoMerger.MergeBE lv (fun _ => listOrder) (ReposPtr.map [("x", gitRepo "u0")])
          [[("c", gitRepo "u"), ("a", gitRepo "u")]]
        = some (ReposPtr.map [("x", gitRepo "u0"), ("c", gitRepo "u")])) ∧
    ReposV1.read [("x", gitRepo "u0"), ("a", gitRepo "u")] "a"
      ≠ ReposV1.read [("x", gitRepo "u0"), ("c", gitRepo "u")] "a" := by
  refine ⟨by decide, ?_, by decide⟩
  intro lv
  cases lv <;> decide

/-- C5, amended. MergeBE does not depend on the visiting order when the
backend manifest is a map that is not nil and the local entries do not
compete for a URL: for every such backend manifest b (r.acc points to a
map with the entries b) and any two enumerations of the same local
entries, with pairwise distinct keys and pairwise distinct URLs (and, when
range loops have one variable per loop, with no URL that b already
declares), MergeBE returns manifests that map every key alike, whatever
the range orders. -/
theorem MergeBE_order_independent (lv : LoopVar) (orders1 orders2 : Nat → RangeOrder)
    (ho1 : ∀ i, (orders1 i).Valid) (ho2 : ∀ i, (orders2 i).Valid)
    (b : ReposV1) (repos1 repos2 : List ReposV1)
    (hperm : repos1.flatten.Perm repos2.flatten)
    (hkeys : (repos1.flatten.map Prod.fst).Nodup)
    (hurls : (repos1.flatten.map (fun e => e.2.url)).Nodup)
    (hb : lv = LoopVar.perLoop → ∀ e ∈ repos1.flatten, e.2.url ∉ b.urls) :
    ∃ m1 m2, repoMerger.MergeBE lv orders1 (ReposPtr.map b) repos1 = some (ReposPtr.map m1) ∧
      repoMerger.MergeBE lv orders2 (ReposPtr.map b) repos2 = some (ReposPtr.map m2) ∧
      ∀ k, m1.read k = m2.read k := by
  refine ⟨_, _, repoMerger.MergeBE_some lv orders1 b repos1,
    repoMerger.MergeBE_some lv orders2 b repos2, ?_⟩
  intro k
  have hurls2 : (repos2.flatten.map (fun e => e.2.url)).Nodup :=
    (hperm.map _).nodup_iff.1 hurls
  have hb2 : lv = LoopVar.perLoop → ∀ e ∈ repos2.flatten, e.2.url ∉ b.urls :=
    fun h e he => hb h e (hperm.mem_iff.2 he)
  rw [repoMerger.mergeLoop_read lv orders1 ho1 k _ 0 b hurls hb,
    repoMerger.mergeLoop_read lv orders2 ho2 k _ 0 b hurls2 hb2,
    repoMerger.lookup_perm _ _ (repoMerger.fresh_perm b _ _ hperm)
      (repoMerger.fresh_keys_nodup b _ hkeys) k]

/-- Witness for C5 amended: two local entries with distinct keys and URLs,
visited in either order, against a backend that declares neither URL. -/
theorem MergeBE_order_independent_witness :
    ∃ m1 m2,
      repoMerger.MergeBE LoopVar.perLoop (fun _ => listOrder) (ReposPtr.map [("x", gitRepo "u0")])
        [[("a", gitRepo "u1"), ("c", gitRepo "u2")]] = some (ReposPtr.map m1) ∧
      repoMerger.MergeBE LoopVar.perLoop (fun _ => listOrder) (ReposPtr.map [("x", gitRepo "u0")])
        [[("c", gitRepo "u2"), ("a", gitRepo "u1")]] = some (ReposPtr.map m2) ∧
      ∀ k, m1.read k = m2.read k :=
  MergeBE_order_independent LoopVar.perLoop (fun _ => listOrder) (fun _ => listOrder)
    (fun _ => listOrder_valid) (fun _ => listOrder_valid) [("x", gitRepo "u0")]
    [[("a", gitRepo "u1"), ("c", gitRepo "u2")]] [[("c", gitRepo "u2"), ("a", gitRepo "u1")]]
    (by decide) (by decide) (by decide) (by decide)

/-- C1 fails on the code as written for one variable per range loop (the
defect of accValues: the addresses it collects all point at the one loop
variable). The backend declares repoA with the URL of repository a; the
local map holds a and b, each with its own URL. The first merge skips a
(the one value accValues shows is that of repoA) and adds b. Merging the
result with the same local map again, the one value accValues shows is
that of b, the URL of a is not found and a is added: the second result
differs from the first. -/
theorem MergeBE_not_idempotent_perLoop :
    repoMerger.MergeBE LoopVar.perLoop (fun _ => listOrder)
        (ReposPtr.map [("repoA", gitRepo "gh.com:org/a.git")])
        [[("a", gitRepo "gh.com:org/a.git"), ("b", gitRepo "gh.com:org/b.git")]]
      = some (ReposPtr.map [("repoA", gitRepo "gh.com:org/a.git"), ("b", gitRepo "gh.com:org/b.git")]) ∧
    repoMerger.MergeBE LoopVar.perLoop (fun _ => listOrder)
        (ReposPtr.map [("repoA", gitRepo "gh.com:org/a.git"), ("b", gitRepo "gh.com:org/b.git")])
        [[("a", gitRepo "gh.com:org/a.git"), ("b", gitRepo "gh.com:org/b.git")]]
      = some (ReposPtr.map [("repoA", gitRepo "gh.com:org/a.git"), ("b", gitRepo "gh.com:org/b.git"),
          ("a", gitRepo "gh.com:org/a.git")]) ∧
    ReposV1.read [("repoA", gitRepo "gh.com:org/a.git"), ("b", gitRepo "gh.com:org/b.git"),
        ("a", gitRepo "gh.com:org/a.git")] "a"
      ≠ ReposV1.read [("repoA", gitRepo "gh.com:org/a.git"), ("b", gitRepo "gh.com:org/b.git")]
          "a" := by
  decide

/-- C3 fails on the code as written for one variable per range loop (the
defect of accValues). The backend declares a and c, and only the URL of a
is found locally, so exactly the value of c is missing. When the range
over the accumulator ends with c, ReposToClone returns the value of c
twice; when it ends with a, ReposToClone returns nothing. -/
theorem ReposToClone_wrong_perLoop :
    repoMerger.ReposToClone LoopVar.perLoop listOrder
        (ReposPtr.map [("a", gitRepo "gh.com:org/a.git"), ("c", gitRepo "gh.com:org/c.git")])
        [[("a", gitRepo "gh.com:org/a.git")]]
      = [gitRepo "gh.com:org/c.git", gitRepo "gh.com:org/c.git"] ∧
    repoMerger.ReposToClone LoopVar.perLoop listOrder
        (ReposPtr.map [("c", gitRepo "gh.com:org/c.git"), ("a", gitRepo "gh.com:org/a.git")])
        [[("a", gitRepo "gh.com:org/a.git")]]
      = [] := by
  decide

/-- C6 fails on the code as written for one variable per range loop (the
defect of accValues). The backend declares repoA with the URL of
repository a; the local map holds b and a, visited in that order. After b
is added the one value accValues shows is that of b, so the URL of a is
not found and a is added: the merged manifest declares the URL of a under
the backend key repoA and under the new key a, although the backend URLs
were pairwise distinct. -/
theorem MergeBE_duplicates_url_perLoop :
    (ReposV1.urls [("repoA", gitRepo "gh.com:org/a.git")]).Nodup ∧
    repoMerger.MergeBE LoopVar.perLoop (fun _ => listOrder)
        (ReposPtr.map [("repoA", gitRepo "gh.com:org/a.git")])
        [[("b", gitRepo "gh.com:org/b.git"), ("a", gitRepo "gh.com:org/a.git")]]
      = some (ReposPtr.map [("repoA", gitRepo "gh.com:org/a.git"), ("b", gitRepo "gh.com:org/b.git"),
          ("a", gitRepo "gh.com:org/a.git")]) ∧
    ReposV1.read [("repoA", gitRepo "gh.com:org/a.git")] "a" = none ∧
    ReposV1.read [("repoA", gitRepo "gh.com:org/a.git"), ("b", gitRepo "gh.com:org/b.git"),
        ("a", gitRepo "gh.com:org/a.git")] "a" = some (gitRepo "gh.com:org/a.git") ∧
    ReposV1.read [("repoA", gitRepo "gh.com:org/a.git"), ("b", gitRepo "gh.com:org/b.git"),
        ("a", gitRepo "gh.com:org/a.git")] "repoA" = some (gitRepo "gh.com:org/a.git") ∧
    ¬ (ReposV1.urls [("repoA", gitRepo "gh.com:org/a.git"), ("b", gitRepo "gh.com:org/b.git"),
        ("a", gitRepo "gh.com:org/a.git")]).Nodup := by
  decide

/-- Idempotence for one variable per iteration: merging the result of
MergeBE with the same local maps again returns that result unchanged,
whatever the range orders of the two runs. -/
theorem MergeBE_idempotent_perIteration (orders1 orders2 : Nat → RangeOrder)
    (ho1 : ∀ i, (orders1 i).Valid) (ho2 : ∀ i, (orders2 i).Valid)
    (b : ReposV1) (repos : List ReposV1) :
    ∃ m, repoMerger.MergeBE LoopVar.perIteration orders1 (ReposPtr.map b) repos = some (ReposPtr.map m) ∧
      repoMerger.MergeBE LoopVar.perIteration orders2 (ReposPtr.map m) repos = some (ReposPtr.map m) := by
  refine ⟨_, repoMerger.MergeBE_some _ orders1 b repos, ?_⟩
  rw [repoMerger.MergeBE_some,
    repoMerger.mergeLoop_of_settled orders2 ho2 _ 0 _
      (repoMerger.Settled_of_visited orders1 ho1 _ 0 b)]

/-- Deduplication by URL for one variable per iteration: in the manifest
MergeBE returns, a key that the backend does not have carries a URL that
is under no other key, and pairwise distinct backend URLs stay pairwise
distinct after the merge. -/
theorem MergeBE_dedupes_by_url_perIteration (orders : Nat → RangeOrder)
    (ho : ∀ i, (orders i).Valid) (b : ReposV1) (repos : List ReposV1) :
    ∃ m, repoMerger.MergeBE LoopVar.perIteration orders (ReposPtr.map b) repos = some (ReposPtr.map m) ∧
      (∀ k v k1 v1, b.read k = none → m.read k = some v → k1 ≠ k → m.read k1 = some v1 →
        v1.url ≠ v.url) ∧
      (b.urls.Nodup → m.urls.Nodup) := by
  obtain ⟨ins, hins, hnew, _, hurls⟩ := repoMerger.mergeLoop_appends orders ho repos.flatten 0 b
  refine ⟨_, repoMerger.MergeBE_some _ orders b repos, ?_, ?_⟩
  · intro k v k1 v1 hbk hmk hne hmk1
    rw [hins] at hmk hmk1
    simp only [ReposV1.read, List.lookup_append] at hmk hmk1 hbk
    rw [hbk] at hmk
    have hin : (k, v) ∈ ins := repoMerger.mem_of_lookup ins k v (by simpa using hmk)
    have hin1 : (k1, v1) ∈ b ++ ins := by
      cases hb1 : List.lookup k1 b with
      | some w =>
        rw [hb1] at hmk1
        have hw : w = v1 := by simpa using hmk1
        rw [← hw]
        exact List.mem_append_left _ (repoMerger.mem_of_lookup b k1 w hb1)
      | none =>
        rw [hb1] at hmk1
        exact List.mem_append_right _ (repoMerger.mem_of_lookup ins k1 v1 (by simpa using hmk1))
    intro hc
    rcases List.mem_append.1 hin1 with h | h
    · apply (hnew (k, v) hin).2
      rw [← hc]
      exact List.mem_map.2 ⟨(k1, v1), h, rfl⟩
    · have := List.inj_on_of_nodup_map hurls h hin hc
      exact hne (Prod.mk.inj this).1
  · intro hb
    rw [hins]
    simp only [ReposV1.urls, List.map_append]
    refine List.nodup_append.2 ⟨hb, hurls, ?_⟩
    intro u hub huins
    obtain ⟨e, he, heu⟩ := List.mem_map.1 huins
    apply (hnew e he).2
    rw [heu]
    exact hub

/-- C7, as stated, fails. With the path grp.com/y on the host gitlab the
HTTPS form is cut at the second .com/ and the SSH form is not, so the two
results differ. With the path org/httpie on the host github the SSH form
contains http, is taken for the HTTPS form and the function panics, while
the HTTPS form is normalised. -/
theorem ValidateGitURL_forms_differ :
    (ValidateGitURL ("https://" ++ "gitlab" ++ ".com/" ++ "grp.com/y" ++ ".git")
        = some { Name := "grp", GitRepo := "gitlab.com:grp.git" } ∧
      ValidateGitURL ("git@" ++ "gitlab" ++ ".com:" ++ "grp.com/y" ++ ".git")
        = some { Name := "grp.com/y", GitRepo := "gitlab.com:grp.com/y.git" }) ∧
    (ValidateGitURL ("https://" ++ "github" ++ ".com/" ++ "org/httpie" ++ ".git")
        = some { Name := "org/httpie", GitRepo := "github.com:org/httpie.git" } ∧
      ValidateGitURL ("git@" ++ "github" ++ ".com:" ++ "org/httpie" ++ ".git") = none) := by
  decide

/-- C7, amended. For every host label h (no dot, colon or at sign) and
every repository path p such that neither contains http and p contains
neither .com/ nor .com:, ValidateGitURL returns on the HTTPS form
https://h.com/p.git and on the SSH form git@h.com:p.git one and the same
NewWorkspace, whose GitRepo is h.com:p.git. -/
theorem ValidateGitURL_format_independent (h p : String)
    (hdot : '.' ∉ h.data) (hcolon : ':' ∉ h.data) (hat : '@' ∉ h.data)
    (hh : strings.Contains h "http" = false) (hp : strings.Contains p "http" = false)
    (hp1 : strings.Contains p ".com/" = false) (hp2 : strings.Contains p ".com:" = false) :
    ∃ w, ValidateGitURL ("https://" ++ h ++ ".com/" ++ p ++ ".git") = some w ∧
      ValidateGitURL ("git@" ++ h ++ ".com:" ++ p ++ ".git") = some w ∧
      w.GitRepo = h ++ ".com:" ++ p ++ ".git" := by
  obtain ⟨w, hw, hrepo⟩ := normalised_isSome h p
  refine ⟨w, ?_, ?_, ?_⟩
  · rw [ValidateGitURL_https_form h p hdot hcolon hp1, hw]
  · rw [ValidateGitURL_ssh_form h p hdot hat hh hp hp2, hw]
  · rw [hrepo]; simp only [String.append_assoc]

/-- Witness for C7 amended: the repository of the comment above clone. -/
theorem ValidateGitURL_format_independent_witness :
    ∃ w, ValidateGitURL ("https://" ++ "github" ++ ".com/" ++ "brevdev/microservices-demo" ++ ".git")
        = some w ∧
      ValidateGitURL ("git@" ++ "github" ++ ".com:" ++ "brevdev/microservices-demo" ++ ".git")
        = some w ∧
      w.GitRepo = "github" ++ ".com:" ++ "brevdev/microservices-demo" ++ ".git" :=
  ValidateGitURL_format_independent "github" "brevdev/microservices-demo"
    (by decide) (by decide) (by decide) (by decide) (by decide) (by decide) (by decide)

/-- C8 fails on the code. On the SSH form without a trailing .git the SSH
branch returns host and path as they are, where the HTTPS branch appends
.git: the GitRepo does not end in .git. On an HTTPS form whose path has
.git inside and not at its end the HTTPS branch takes the .git for the
suffix and does not append one either. -/
theorem ValidateGitURL_git_suffix_missing :
    ValidateGitURL "git@github.com:brevdev/microservices-demo"
      = some { Name := "brevdev/microservices-demo",
               GitRepo := "github.com:brevdev/microservices-demo" } ∧
    ¬ (".git".data <:+ "github.com:brevdev/microservices-demo".data) ∧
    ValidateGitURL "https://github.com/brevdev/microservices-demo"
      = some { Name := "brevdev/microservices-demo",
               GitRepo := "github.com:brevdev/microservices-demo.git" } ∧
    ValidateGitURL "https://github.com/org/my.github.io"
      = some { Name := "org/my", GitRepo := "github.com:org/my.github.io" } ∧
    ¬ (".git".data <:+ "github.com:org/my.github.io".data) := by
  decide

/-- C9, as stated, fails: a plain http URL contains neither https:// nor
an at sign, and ValidateGitURL normalises it like an HTTPS one. -/
theorem ValidateGitURL_accepts_plain_http :
    strings.Contains "http://github.com/org/repo" "https://" = false ∧
    '@' ∉ "http://github.com/org/repo".data ∧
    ValidateGitURL "http://github.com/org/repo"
      = some { Name := "org/repo", GitRepo := "github.com:org/repo.git" } := by
  decide

/-- C9, amended. ValidateGitURL has no result (it panics on an index out of
range) for every input that contains neither http nor the SSH marker, an
at sign with a colon somewhere after it. -/
theorem ValidateGitURL_rejects_unmarked (url : String)
    (hhttp : strings.Contains url "http" = false)
    (hssh : ∀ x y z, url.data ≠ x ++ '@' :: (y ++ ':' :: z)) :
    ValidateGitURL url = none := by
  cases hw : ValidateGitURL url with
  | none => rfl
  | some w =>
    obtain ⟨x, y, z, hxyz⟩ := ValidateGitURL_ssh_marker url w hhttp hw
    exact absurd hxyz (hssh x y z)

/-- Witness for C9 amended: an argument with an at sign but no colon. -/
theorem ValidateGitURL_rejects_unmarked_witness : ValidateGitURL "dev@box" = none :=
  ValidateGitURL_rejects_unmarked "dev@box" (by decide) (by
    intro x y z h
    have hin : ':' ∈ "dev@box".data := by rw [h]; simp
    revert hin
    decide)

/-- C10. pollUntil stops at the first decisive fetch. When the fetch number
n (counting from 0) is the first that fails or reports the target status,
pollUntil, given fuel for more than n iterations, returns after exactly
n + 1 fetches (so after at least one, and with no fetch after the decisive
one); it returns nil when that fetch reported the target status and the
error of that fetch, passed through WrapAndTrace, when it failed. -/
theorem pollUntil_stops_at_first_decisive {E : Type} (wrapAndTrace : E → E) (state : String)
    (getWorkspace : Nat → Fetched E) (n fuel : Nat)
    (hbefore : ∀ i, i < n → decisive state (getWorkspace i) = false)
    (hn : decisive state (getWorkspace n) = true) (hfuel : n < fuel) :
    pollUntil wrapAndTrace state getWorkspace fuel
      = some (n + 1, pollResult wrapAndTrace (getWorkspace n)) := by
  have h := pollLoop_first_decisive wrapAndTrace state getWorkspace n fuel 0
    (fun j hj => by simpa using hbefore j hj) (by simpa using hn) hfuel
  simpa [pollUntil] using h

/-- Witness for C10: two fetches report STARTING, the third RUNNING. -/
theorem pollUntil_stops_at_first_decisive_witness :
    pollUntil (fun e : String => "trace: " ++ e) "RUNNING"
        (fun i => if i < 2 then Except.ok ⟨"ws1", "dev", "STARTING", ""⟩
          else Except.ok ⟨"ws1", "dev", "RUNNING", "dev.brev.sh"⟩) 5
      = some (3, none) :=
  pollUntil_stops_at_first_decisive (fun e : String => "trace: " ++ e) "RUNNING"
    (fun i => if i < 2 then Except.ok ⟨"ws1", "dev", "STARTING", ""⟩
      else Except.ok ⟨"ws1", "dev", "RUNNING", "dev.brev.sh"⟩) 2 5
    (by decide) (by decide) (by decide)

/-- The loop has no bound of its own: when no fetch ever fails or reports
the target status, pollUntil does not return, whatever the fuel. -/
theorem pollUntil_never_returns {E : Type} (wrapAndTrace : E → E) (state : String)
    (getWorkspace : Nat → Fetched E) (hnone : ∀ i, decisive state (getWorkspace i) = false)
    (fuel : Nat) : pollUntil wrapAndTrace state getWorkspace fuel = none :=
  pollLoop_no_decisive wrapAndTrace state getWorkspace hnone fuel 0

/-- C11. startWorkspace refuses a name that is not unique, without side
effects. When the lookup by name is reached and answered (the organization
and the user are resolved and GetWorkspaces returns a list), startWorkspace
returns the error no workspace found of name ... for an empty list and the
error more than 1 workspace found of name ... for a list of two or more;
in both cases the store calls made are the three of the lookup, so
StartWorkspace is not called and no polling fetch (GetWorkspace) is
made. -/
theorem startWorkspace_refuses_non_unique {E : Type} (ops : ErrorOps E) (store : StartStore E)
    (fuel : Nat) (workspaceName : String) (org : Organization) (user : User)
    (workspaces : List Workspace)
    (horg : store.GetActiveOrganizationOrDefault = Except.ok (some org))
    (huser : store.GetCurrentUser = Except.ok user)
    (hws : store.GetWorkspaces org.ID { UserID := user.ID, Name := workspaceName }
      = Except.ok workspaces)
    (hcount : workspaces.length ≠ 1) :
    ∃ out, startWorkspace ops store fuel workspaceName = some out ∧
      (workspaces.length = 0 →
        out.err = some (ops.Errorf ("no workspace found of name " ++ workspaceName))) ∧
      (workspaces.length > 1 →
        out.err = some (ops.Errorf ("more than 1 workspace found of name " ++ workspaceName))) ∧
      out.calls = [StoreCall.GetActiveOrganizationOrDefault, StoreCall.GetCurrentUser,
        StoreCall.GetWorkspaces org.ID { UserID := user.ID, Name := workspaceName }] ∧
      ∀ id, StoreCall.StartWorkspace id ∉ out.calls ∧ StoreCall.GetWorkspace id ∉ out.calls := by
  refine ⟨_, startWorkspace_of_count ops store fuel workspaceName org user workspaces
    horg huser hws hcount, ?_, ?_, rfl, ?_⟩
  · intro h0; simp [h0]
  · intro h1
    have h0 : ¬ workspaces.length = 0 := by omega
    simp [h0]
  · intro id
    simp

/-- Witness for C11: two workspaces are named dev. -/
theorem startWorkspace_refuses_non_unique_witness :
    ∃ out, startWorkspace messageOps
        (sampleStore (some ⟨"org1", "acme"⟩)
          [⟨"ws1", "dev", "STOPPED", ""⟩, ⟨"ws2", "dev", "STOPPED", ""⟩]
          (Except.error "unused") startingThenRunning) 5 "dev" = some out ∧
      ((2 : Nat) = 0 → out.err = some (messageOps.Errorf ("no workspace found of name " ++ "dev"))) ∧
      ((2 : Nat) > 1 →
        out.err = some (messageOps.Errorf ("more than 1 workspace found of name " ++ "dev"))) ∧
      out.calls = [StoreCall.GetActiveOrganizationOrDefault, StoreCall.GetCurrentUser,
        StoreCall.GetWorkspaces "org1" { UserID := "u1", Name := "dev" }] ∧
      ∀ id, StoreCall.StartWorkspace id ∉ out.calls ∧ StoreCall.GetWorkspace id ∉ out.calls :=
  startWorkspace_refuses_non_unique messageOps
    (sampleStore (some ⟨"org1", "acme"⟩)
      [⟨"ws1", "dev", "STOPPED", ""⟩, ⟨"ws2", "dev", "STOPPED", ""⟩]
      (Except.error "unused") startingThenRunning) 5 "dev" ⟨"org1", "acme"⟩ ⟨"u1"⟩
    [⟨"ws1", "dev", "STOPPED", ""⟩, ⟨"ws2", "dev", "STOPPED", ""⟩] rfl rfl rfl (by decide)

/-- C12. clone with no organization fails without creating anything: for
every URL that ValidateGitURL normalises and an empty organization flag,
when GetActiveOrganizationOrDefault answers with no organization, clone
returns the error no org exist after that one store call, so
CreateWorkspace is not called. -/
theorem clone_no_org_creates_nothing {E : Type} (ops : ErrorOps E) (defaultClusterID : String)
    (store : StartStore E) (fuel : Nat) (url : String) (formattedURL : NewWorkspace)
    (hurl : ValidateGitURL url = some formattedURL)
    (horg : store.GetActiveOrganizationOrDefault = Except.ok none) :
    ∃ out, clone ops defaultClusterID store fuel url "" = some out ∧
      out.err = some (ops.Errorf "no org exist") ∧
      out.calls = [StoreCall.GetActiveOrganizationOrDefault] ∧
      ∀ organizationID options, StoreCall.CreateWorkspace organizationID options ∉ out.calls := by
  refine ⟨_, clone_of_no_org ops defaultClusterID store fuel url formattedURL hurl horg,
    rfl, rfl, ?_⟩
  intro organizationID options
  simp

/-- Witness for C12: the SSH URL of the comment above clone, and a store
without organization. -/
theorem clone_no_org_creates_nothing_witness :
    ∃ out, clone messageOps "cluster1"
        (sampleStore none [] (Except.ok ⟨"ws1", "dev", "STARTING", ""⟩) startingThenRunning) 5
        "git@github.com:brevdev/microservices-demo.git" "" = some out ∧
      out.err = some (messageOps.Errorf "no org exist") ∧
      out.calls = [StoreCall.GetActiveOrganizationOrDefault] ∧
      ∀ organizationID options, StoreCall.CreateWorkspace organizationID options ∉ out.calls :=
  clone_no_org_creates_nothing messageOps "cluster1"
    (sampleStore none [] (Except.ok ⟨"ws1", "dev", "STARTING", ""⟩) startingThenRunning) 5
    "git@github.com:brevdev/microservices-demo.git"
    ⟨"brevdev/microservices-demo", "github.com:brevdev/microservices-demo.git"⟩
    (by decide) rfl

/-- C13 fails on the code: clone prints the error of createWorkspace and
returns nil. With an active organization and a store whose CreateWorkspace
fails, clone returns nil after the failed call; with a store whose first
status fetch fails, clone returns nil as well. In neither run did a fetch
report RUNNING. -/
theorem clone_returns_nil_on_failure :
    clone messageOps "cluster1"
        (sampleStore (some ⟨"org1", "acme"⟩) [] (Except.error "quota exceeded")
          startingThenRunning) 5
        "git@github.com:brevdev/microservices-demo.git" ""
      = some ⟨[StoreCall.GetActiveOrganizationOrDefault,
          StoreCall.CreateWorkspace "org1"
            { ClusterID := "cluster1", Name := "brevdev/microservices-demo",
              GitRepo := "github.com:brevdev/microservices-demo.git" }], none⟩ ∧
    clone messageOps "cluster1"
        (sampleStore (some ⟨"org1", "acme"⟩) [] (Except.ok ⟨"ws1", "dev", "STARTING", ""⟩)
          (fun _ => Except.error "status endpoint down")) 5
        "git@github.com:brevdev/microservices-demo.git" ""
      = some ⟨[StoreCall.GetActiveOrganizationOrDefault,
          StoreCall.CreateWorkspace "org1"
            { ClusterID := "cluster1", Name := "brevdev/microservices-demo",
              GitRepo := "github.com:brevdev/microservices-demo.git" },
          StoreCall.GetWorkspace "ws1"], none⟩ ∧
    createWorkspace messageOps "cluster1"
        (sampleStore (some ⟨"org1", "acme"⟩) [] (Except.error "quota exceeded")
          startingThenRunning) 5
        ⟨"brevdev/microservices-demo", "github.com:brevdev/microservices-demo.git"⟩ "org1"
      = some ⟨[StoreCall.CreateWorkspace "org1"
            { ClusterID := "cluster1", Name := "brevdev/microservices-demo",
              GitRepo := "github.com:brevdev/microservices-demo.git" }],
          some "trace: quota exceeded"⟩ := by
  decide

/-- C15 fails on the code: the start command does not look a workspace name
up. The argument dev contains neither https:// nor git@ and the store has
exactly one workspace of that name, yet the run makes no store call at
all, where startWorkspace, whose call is commented out, makes the lookup
by that name and starts ws1. -/
theorem start_command_ignores_workspace_name :
    strings.Contains "dev" "https://" = false ∧ strings.Contains "dev" "git@" = false ∧
    NewCmdStart_Run messageOps "cluster1"
        (sampleStore (some ⟨"org1", "acme"⟩) [⟨"ws1", "dev", "STOPPED", ""⟩]
          (Except.error "unused") startingThenRunning) 5 "dev" ""
      = some [] ∧
    startWorkspace messageOps
        (sampleStore (some ⟨"org1", "acme"⟩) [⟨"ws1", "dev", "STOPPED", ""⟩]
          (Except.error "unused") startingThenRunning) 5 "dev"
      = some ⟨[StoreCall.GetActiveOrganizationOrDefault, StoreCall.GetCurrentUser,
          StoreCall.GetWorkspaces "org1" { UserID := "u1", Name := "dev" },
          StoreCall.StartWorkspace "ws1", StoreCall.GetWorkspace "ws1",
          StoreCall.GetWorkspace "ws1", StoreCall.GetWorkspace "ws1"], none⟩ := by
  decide

/-- C14. Clone failures are aggregated, not short-circuited. When RunE
reaches the clone stage (the daemon is not being configured and discovery,
the two workspace calls, the merge, ModifyWorkspace and UserHomeDir
succeed), it calls clone once for each repo of the list that ReposToClone
returns, in order and whatever the earlier calls returned, and it returns
nil exactly when every one of these calls returned nil. -/
theorem RunE_clones_every_repo {E : Type} (ops : ErrorOps E) (lv : LoopVar)
    (orders : Nat → RangeOrder) (order : RangeOrder)
    (GetRepoNameFromOrigin GetSSHURLFromOrigin : String → String) (Configure : Option E)
    (tree : String → List (WalkEntry E)) (u : updateModel E)
    (remotes : List Remote) (workspaceID : String) (reposv1FromBE : ReposPtr)
    (urls : List String) (merged : ReposPtr) (dir : String)
    (hconf : u.configure = false)
    (hrem : u.remotes ops tree = Except.ok remotes)
    (hid : u.Store.GetCurrentWorkspaceID = Except.ok workspaceID)
    (hws : u.Store.GetWorkspace workspaceID = Except.ok reposv1FromBE)
    (hurls : (lo.Map remotes (fun remote _ => remote.URLs[0]?)).mapM id = some urls)
    (hmerge : repoMerger.MergeBE lv orders reposv1FromBE
      [makeReposFromRemotes GetRepoNameFromOrigin GetSSHURLFromOrigin urls] = some merged)
    (hmod : u.Store.ModifyWorkspace workspaceID merged = Except.ok ())
    (hdir : u.Store.UserHomeDir 1 = Except.ok dir) :
    ∃ out, u.RunE ops lv orders order GetRepoNameFromOrigin GetSSHURLFromOrigin Configure tree
        = some out ∧
      out.cloned = (repoMerger.ReposToClone lv order merged
          [makeReposFromRemotes GetRepoNameFromOrigin GetSSHURLFromOrigin urls]).map
        (fun repo => (dir, repo.GitRepo.Repository)) ∧
      (out.err = none ↔
        ∀ (i : Nat) (repo : RepoV1),
          (repoMerger.ReposToClone lv order merged
            [makeReposFromRemotes GetRepoNameFromOrigin GetSSHURLFromOrigin urls])[i]? = some repo →
          u.clone i dir repo.GitRepo.Repository = none) := by
  refine ⟨_, RunE_at_clone_stage ops lv orders order GetRepoNameFromOrigin GetSSHURLFromOrigin
    Configure tree u remotes workspaceID reposv1FromBE urls merged dir hconf hrem hid hws hurls
    hmerge hmod hdir, ?_, ?_⟩
  · exact MapFrom_calls ops u dir _ 0
  · have hmap := MapFrom_errors_nil ops u dir
      (repoMerger.ReposToClone lv order merged
        [makeReposFromRemotes GetRepoNameFromOrigin GetSSHURLFromOrigin urls]) 0
    simp only [Nat.zero_add] at hmap
    rw [← hmap]
    simp only [ErrorOps.wrapAndTrace, Option.map_eq_none', lo.Reduce, lo.Map,
      ReduceFrom_joinErrors_nil, true_and]

/-- Witness for C14: the backend declares a and c, nothing is found
locally, and the first clone call fails. -/
theorem RunE_clones_every_repo_witness :
    ∃ out, (sampleUpdateModel (ReposPtr.map [("a", gitRepo "gh.com:org/a.git"),
          ("c", gitRepo "gh.com:org/c.git")])).RunE messageOps LoopVar.perIteration
        (fun _ => listOrder) listOrder (fun s => s) (fun s => s) none sampleTree = some out ∧
      out.cloned = (repoMerger.ReposToClone LoopVar.perIteration listOrder
          (ReposPtr.map [("a", gitRepo "gh.com:org/a.git"), ("c", gitRepo "gh.com:org/c.git")])
          [makeReposFromRemotes (fun s => s) (fun s => s) []]).map
        (fun repo => ("/home/ubuntu", repo.GitRepo.Repository)) ∧
      (out.err = none ↔
        ∀ (i : Nat) (repo : RepoV1),
          (repoMerger.ReposToClone LoopVar.perIteration listOrder
            (ReposPtr.map [("a", gitRepo "gh.com:org/a.git"), ("c", gitRepo "gh.com:org/c.git")])
            [makeReposFromRemotes (fun s => s) (fun s => s) []])[i]? = some repo →
          (sampleUpdateModel (ReposPtr.map [("a", gitRepo "gh.com:org/a.git"),
            ("c", gitRepo "gh.com:org/c.git")])).clone i "/home/ubuntu"
              repo.GitRepo.Repository = none) :=
  RunE_clones_every_repo messageOps LoopVar.perIteration (fun _ => listOrder) listOrder
    (fun s => s) (fun s => s) none sampleTree
    (sampleUpdateModel (ReposPtr.map [("a", gitRepo "gh.com:org/a.git"),
      ("c", gitRepo "gh.com:org/c.git")]))
    [] "ws1" (ReposPtr.map [("a", gitRepo "gh.com:org/a.git"), ("c", gitRepo "gh.com:org/c.git")])
    [] (ReposPtr.map [("a", gitRepo "gh.com:org/a.git"), ("c", gitRepo "gh.com:org/c.git")])
    "/home/ubuntu" rfl rfl rfl rfl rfl rfl rfl rfl

/-- C16 fails on the code: the walk function appends the remotes it reads
to a variable of its own (declared by remotes, err := repo.Remotes()), not
to the variable that remotes returns. The walk from /home/ubuntu, a
checkout with the remote origin, completes without error and the list
returned is empty, while the variable of the walk function held origin. -/
theorem remotes_returns_nothing :
    (sampleUpdateModel ReposPtr.nil).remotes messageOps sampleTree = Except.ok [] ∧
    (WalkDir (walkFn messageOps) [] (sampleTree "/home/ubuntu")).1 = none ∧
    (walkFn messageOps [] ⟨"/home/ubuntu", none, true,
        Except.ok (Except.ok [⟨"origin", ["git@github.com:brevdev/brev-cli.git"]⟩])⟩).inner
      = [⟨"origin", ["git@github.com:brevdev/brev-cli.git"]⟩,
         ⟨"origin", ["git@github.com:brevdev/brev-cli.git"]⟩] := by
  refine ⟨?_, ?_, ?_⟩ <;> rfl

end BrevCli
